import Mathlib

/-!
Shallow embedding of the dispatch core of the go-load-balancer repository
(package `internal/balancer`), together with theorems settling the claims
about its specification.

Conventions of the embedding:
* Go `int` / `int32` fields are modelled as `Int` (the claims never reach
  the 32/64-bit overflow boundary; where a Go literal such as
  `math.MaxInt32` appears it is kept as the literal `2147483647`).
* Go slices of `*Process` are modelled as `List Process`; pointer identity
  is modelled by position (index) in the list.  The Go source builds
  SEPARATE `Process` arrays for the session-persistence balancer, its base
  balancer and its consistent-hash ring; the embedding keeps those copies
  separate exactly as the source does.
* `url.Parse` is modelled as the identity on the configured URL string
  (the claims only involve well-formed URLs, for which `Parse` succeeds
  and `String()` returns an equivalent string).
* Mutation is modelled by explicit state passing; spawning a revival
  timer goroutine is recorded as an explicit Boolean output of the
  failure handler instead of running.
-/

namespace GoLB

/-- Replace the element at position `j` of a list, leaving the list
unchanged when `j` is out of range (the behaviour of writing through a
pointer obtained from slice index `j`). -/
def updateAt (j : Nat) (f : α → α) : List α → List α
  | [] => []
  | x :: xs =>
    match j with
    | 0 => f x :: xs
    | Nat.succ j => x :: updateAt j f xs

/-! ### The backend (`Process`) data model, from `internal/balancer/process.go` -/

/-- Mirror of the Go struct `Process` (URL, Alive, ErrorCount, Weight,
Current, ActiveConnections).  `url` holds `URL.String()`. -/
structure Process where
  url : String
  alive : Bool
  errorCount : Int
  weight : Int
  current : Int
  activeConnections : Int
deriving Repr, DecidableEq

/-- Mirror of the Go struct `BackendConfig` (URL and Weight fields used by
the balancer constructors). -/
structure BackendConfig where
  url : String
  weight : Int
deriving Repr, DecidableEq

/-- Weight normalisation performed by every constructor:
`if weight <= 0 { weight = 1 }`. -/
def normWeight (w : Int) : Int := if w ≤ 0 then 1 else w

/-! ### Weighted round robin, from `NewLoadBalancer` / `GetNextInstance` -/

/-- Mirror of `WeightedRoundRobinBalancer` (the `Current` request counter
field of the Go struct is never read or written by the dispatch code and
is omitted). -/
structure WRRBalancer where
  processPack : List Process
  totalWeight : Int
deriving Repr, DecidableEq

/-- The selection loop of `WeightedRoundRobinBalancer.GetNextInstance`:
scan the pack, skipping non-alive entries, keeping the first index whose
`Current` strictly exceeds the running maximum (which starts at 0). -/
def wrrScan : List Process → Nat → Int → Option Nat → Option Nat
  | [], _, _, sel => sel
  | p :: ps, i, maxCurrent, sel =>
    if p.alive = true ∧ maxCurrent < p.current then
      wrrScan ps (i + 1) p.current (some i)
    else
      wrrScan ps (i + 1) maxCurrent sel

/-- `NewLoadBalancer`: normalise weights, set `Current := Weight`
(`ResetCurrentWeight`), mark every backend alive, accumulate
`TotalWeight`. -/
def newLoadBalancer (configs : List BackendConfig) : WRRBalancer :=
  { processPack := configs.map fun c =>
      { url := c.url
        alive := true
        errorCount := 0
        weight := normWeight c.weight
        current := normWeight c.weight
        activeConnections := 0 }
    totalWeight := (configs.map fun c => normWeight c.weight).sum }

/-- `WeightedRoundRobinBalancer.GetNextInstance`: pick the scan winner,
then add each alive backend's weight to its credit and subtract the total
weight from the winner.  Returns the selected index (pointer identity in
the Go source) together with the mutated balancer. -/
def wrrGetNextInstance (lb : WRRBalancer) : Option Nat × WRRBalancer :=
  if lb.processPack.isEmpty then (none, lb) else
  match wrrScan lb.processPack 0 0 none with
  | none => (none, lb)
  | some j =>
    let pack1 := lb.processPack.map fun p =>
      if p.alive then { p with current := p.current + p.weight } else p
    let pack2 := updateAt j (fun p => { p with current := p.current - lb.totalWeight }) pack1
    (some j, { lb with processPack := pack2 })

/-! ### The dispatch-sequence invariant for smooth weighted round robin -/

/-- States reachable by pure dispatching from a freshly built pool whose
backends all stay alive: weights are the normalised configured weights,
the total weight is their sum, and every credit is at least
`weight - total + 1`.  `csum` records that the credits always sum to the
total weight. -/
structure WRRInv (ws : List Int) (lb : WRRBalancer) : Prop where
  weights : lb.processPack.map Process.weight = ws
  alive : ∀ p ∈ lb.processPack, p.alive = true
  total : lb.totalWeight = ws.sum
  lower : ∀ p ∈ lb.processPack, p.weight - ws.sum + 1 ≤ p.current
  csum : (lb.processPack.map Process.current).sum = ws.sum

/-! ### The sequential dispatch stream of a WRR pool -/

/-- State after `t` consecutive dispatches (`GetNextInstance` calls). -/
def wrrRun (lb : WRRBalancer) : Nat → WRRBalancer
  | 0 => lb
  | Nat.succ t => (wrrGetNextInstance (wrrRun lb t)).2

/-- The backend index selected by dispatch number `t` (0-based). -/
def wrrSelAt (lb : WRRBalancer) (t : Nat) : Option Nat :=
  (wrrGetNextInstance (wrrRun lb t)).1

/-- Number of dispatches in the window `[t, t + len)` that select `i`. -/
def wrrCount (lb : WRRBalancer) (i : Nat) : Nat → Nat → Nat
  | _, 0 => 0
  | t, Nat.succ len => (if wrrSelAt lb t = some i then 1 else 0) + wrrCount lb i (t + 1) len

/-- Normalised weights of a configuration list. -/
def normWeights (configs : List BackendConfig) : List Int :=
  configs.map fun c => normWeight c.weight

/-- Total weight `W = Σ weight[i]` of a pool, as a window length. -/
def totalWeightNat (configs : List BackendConfig) : Nat := (normWeights configs).sum.toNat

/-! ### HTTP request model -/

/-- The parts of `*http.Request` the dispatch core reads: method, header
values keyed by canonical header name, cookies, URL path, peer address
and whether the request arrived over TLS. -/
structure Request where
  method : String
  headers : List (String × List String)
  cookies : List (String × String)
  urlPath : String
  remoteAddr : String
  tls : Bool
deriving Repr, DecidableEq

/-- `r.Header.Values(key)`: all values stored under the (canonical) key. -/
def headerValues (r : Request) (key : String) : List String :=
  match r.headers.lookup key with
  | some vs => vs
  | none => []

/-- `r.Header.Get(key)`: first value or the empty string. -/
def getHeader (r : Request) (key : String) : String :=
  match headerValues r key with
  | [] => ""
  | v :: _ => v

/-- `r.Cookie(name)`: the named cookie's value, if present. -/
def getCookie (r : Request) (name : String) : Option String :=
  r.cookies.lookup name

/-! ### WebSocket detection, from `IsWebSocketRequest` in websocket.go -/

/-- The `contains` closure of `IsWebSocketRequest`: scan the header's
values for one that is EXACTLY equal (case-sensitive, whole value) to
`val`. -/
def containsHeaderValue (values : List String) (val : String) : Bool :=
  match values with
  | [] => false
  | v :: rest => if val == v then true else containsHeaderValue rest val

/-- `IsWebSocketRequest`: Connection has a value equal to `"Upgrade"`,
Upgrade has a value equal to `"websocket"`, and the method is GET. -/
def isWebSocketRequest (r : Request) : Bool :=
  containsHeaderValue (headerValues r "Connection") "Upgrade" &&
  containsHeaderValue (headerValues r "Upgrade") "websocket" &&
  (r.method == "GET")

/-- ASCII lower-casing of one character (spec-side helper). -/
def lowerChar (c : Char) : Char :=
  if 'A' ≤ c ∧ c ≤ 'Z' then Char.ofNat (c.toNat + 32) else c

/-- Split a character list at every occurrence of `sep` (spec-side
helper: comma-separated header tokens). -/
def splitChar (sep : Char) : List Char → List (List Char)
  | [] => [[]]
  | c :: rest =>
    let r := splitChar sep rest
    if c = sep then [] :: r
    else
      match r with
      | t :: ts => (c :: t) :: ts
      | [] => [[c]]

/-- Linear whitespace inside a header value. -/
def isWhite (c : Char) : Bool := c = ' ' ∨ c = '\t'

/-- Trim leading and trailing whitespace. -/
def trimChars (l : List Char) : List Char :=
  ((l.dropWhile isWhite).reverse.dropWhile isWhite).reverse

/-- A header value contains the given (lower-case) token: split on
commas, trim, compare case-insensitively. -/
def hasToken (v : String) (tok : List Char) : Bool :=
  (splitChar ',' v.toList).any fun t => (trimChars t).map lowerChar == tok

/-- Formalisation of the SPEC wording for C9 (for comparison with
`isWebSocketRequest`): method GET, the `Connection` header contains the
token `Upgrade` and the `Upgrade` header contains the token `websocket`,
case-insensitive token match. -/
def isWebSocketUpgradeSpec (r : Request) : Bool :=
  (r.method == "GET") &&
  ((headerValues r "Connection").any fun v => hasToken v "upgrade".toList) &&
  ((headerValues r "Upgrade").any fun v => hasToken v "websocket".toList)

/-! ### Health accounting, from the ProxyRequest error handlers and
`reviveLater` (present identically in part_020, least_conn.go and
session_persistence.go) -/

/-- The failure accounting of every ProxyRequest error handler:
`atomic.AddInt32(&ErrorCount, 1)`; if the count is now `>= 3`,
`SetAlive(false)` and spawn `go reviveLater(...)`.  The Bool records
whether a revival timer was spawned by this failure. -/
def handleFailure (p : Process) : Process × Bool :=
  let p1 := { p with errorCount := p.errorCount + 1 }
  if 3 ≤ p1.errorCount then ({ p1 with alive := false }, true) else (p1, false)

/-- `reviveLater` body once the 10-second timer fires: `SetAlive(true)`
and `ErrorCount := 0`. -/
def reviveLater (p : Process) : Process :=
  { p with alive := true, errorCount := 0 }

/-! ### Least connections, from least_conn.go -/

/-- Mirror of `LeastConnectionsBalancer`. -/
structure LCBalancer where
  processPack : List Process
deriving Repr, DecidableEq

/-- `NewLeastConnectionsBalancer`: note that, unlike `NewLoadBalancer`,
it does NOT normalise non-positive weights. -/
def newLeastConnectionsBalancer (configs : List BackendConfig) : LCBalancer :=
  { processPack := configs.map fun c =>
      { url := c.url
        alive := true
        errorCount := 0
        weight := c.weight
        current := 0
        activeConnections := 0 } }

/-- The selection loop of `LeastConnectionsBalancer.GetNextInstance`:
`minConnections` starts at `math.MaxInt32`, `selectedIndex` at none
(Go: -1); dead backends are skipped; equal connection counts prefer the
higher weight; strictly fewer connections win outright. -/
def lcScan : List Process → Nat → Int → Option (Nat × Process) → Option (Nat × Process)
  | [], _, _, sel => sel
  | p :: ps, i, minConn, none =>
    if p.alive = true then
      if p.activeConnections < minConn then
        lcScan ps (i + 1) p.activeConnections (some (i, p))
      else lcScan ps (i + 1) minConn none
    else lcScan ps (i + 1) minConn none
  | p :: ps, i, minConn, some (j, q) =>
    if p.alive = true then
      if p.activeConnections = minConn then
        if q.weight < p.weight then lcScan ps (i + 1) minConn (some (i, p))
        else lcScan ps (i + 1) minConn (some (j, q))
      else if p.activeConnections < minConn then
        lcScan ps (i + 1) p.activeConnections (some (i, p))
      else lcScan ps (i + 1) minConn (some (j, q))
    else lcScan ps (i + 1) minConn (some (j, q))

/-- `LeastConnectionsBalancer.GetNextInstance`, returning the selected
index. -/
def lcGetNextInstance (lb : LCBalancer) : Option Nat :=
  (lcScan lb.processPack 0 2147483647 none).map Prod.fst

/-- `Process.IncrementConnections`. -/
def incrementConnections (p : Process) : Process :=
  { p with activeConnections := p.activeConnections + 1 }

/-- `Process.DecrementConnections`. -/
def decrementConnections (p : Process) : Process :=
  { p with activeConnections := p.activeConnections - 1 }

/-- `responseWriterInterceptor.Write` over a response body delivered in
`chunks` successful `Write` calls: EACH successful call decrements the
backend's ActiveConnections. -/
def lcWriteChunks (pack : List Process) (j : Nat) : Nat → List Process
  | 0 => pack
  | Nat.succ n => lcWriteChunks (updateAt j decrementConnections pack) j n

/-- The success path of `LeastConnectionsBalancer.ProxyRequest` for one
request whose response body is written in `chunks` chunks: select,
`IncrementConnections`, proxy, then the interceptor decrements once per
chunk written. -/
def lcProxyOneRequest (lb : LCBalancer) (chunks : Nat) : LCBalancer :=
  match lcGetNextInstance lb with
  | none => lb
  | some j => { processPack := lcWriteChunks (updateAt j incrementConnections lb.processPack) j chunks }

/-! ### Path router, from path_router.go and the RouteConfig part of
config.go.  The Go regexp engine is abstracted as a deterministic
`compile : String → Option σ` plus `matchR : σ → String → Bool`; both
`NewPathRouter` (validation) and `Route` (recompilation) call the same
`compile`. -/

/-- Mirror of the Go `RouteType` enumeration. -/
inductive RouteType where
  | pathRoute
  | regexRoute
  | headerRoute
deriving Repr, DecidableEq, BEq

/-- Mirror of the Go struct `RouteConfig`. -/
structure RouteConfig where
  type : RouteType
  pattern : String
  headerName : String
  headerValue : String
  backendPool : String
deriving Repr, DecidableEq

/-- Mirror of the Go struct `PathRouter`; `ρ` stands for the
`LoadBalancerStrategy` handles stored in the pool map. -/
structure PathRouter (ρ : Type) where
  routes : List RouteConfig
  backendPools : List (String × ρ)
  defaultPool : ρ
  defaultPoolID : String
deriving Repr, DecidableEq

/-- Go map read `backendPools[name]`. -/
def lookupPool (pools : List (String × ρ)) (name : String) : Option ρ :=
  pools.lookup name

/-- `NewPathRouter`: validate that the default pool exists, that every
route's pool exists, and that every regex route's pattern compiles. -/
def newPathRouter (compile : String → Option σ) (routes : List RouteConfig)
    (backendPools : List (String × ρ)) (defaultPool : String) :
    Option (PathRouter ρ) :=
  match lookupPool backendPools defaultPool with
  | none => none
  | some defaultLB =>
    if routes.all (fun route => (lookupPool backendPools route.backendPool).isSome) then
      if routes.all (fun route =>
          if route.type == RouteType.regexRoute then (compile route.pattern).isSome
          else true) then
        some { routes := routes, backendPools := backendPools,
               defaultPool := defaultLB, defaultPoolID := defaultPool }
      else none
    else none

/-- Outcome of `PathRouter.Route`: a backend pool, or the crash that a
nil regex (`re, _ := regexp.Compile` with the error discarded) or a nil
pool interface would cause downstream. -/
inductive RouteOutcome (ρ : Type) where
  | pool : ρ → RouteOutcome ρ
  | nilDeref : RouteOutcome ρ
deriving Repr, DecidableEq

/-- Whether one route matches the request (`none` = the regex failed to
recompile inside `Route`, where the error is discarded). -/
def routeMatches (compile : String → Option σ) (matchR : σ → String → Bool)
    (r : Request) (route : RouteConfig) : Option Bool :=
  match route.type with
  | RouteType.pathRoute => some (route.pattern.isPrefixOf r.urlPath)
  | RouteType.regexRoute =>
    match compile route.pattern with
    | some re => some (matchR re r.urlPath)
    | none => none
  | RouteType.headerRoute => some (getHeader r route.headerName == route.headerValue)

/-- The rule loop of `PathRouter.Route`: first match wins; fall through
to the default pool. -/
def routeLoop (compile : String → Option σ) (matchR : σ → String → Bool)
    (pr : PathRouter ρ) (r : Request) : List RouteConfig → RouteOutcome ρ
  | [] => RouteOutcome.pool pr.defaultPool
  | route :: rest =>
    match routeMatches compile matchR r route with
    | none => RouteOutcome.nilDeref
    | some true =>
      match lookupPool pr.backendPools route.backendPool with
      | some lb => RouteOutcome.pool lb
      | none => RouteOutcome.nilDeref
    | some false => routeLoop compile matchR pr r rest

/-- `PathRouter.Route`. -/
def route (compile : String → Option σ) (matchR : σ → String → Bool)
    (pr : PathRouter ρ) (r : Request) : RouteOutcome ρ :=
  routeLoop compile matchR pr r pr.routes

/-! ### Hash functions used by the session-persistence code.
`hash/crc32.ChecksumIEEE` and `crypto/md5.Sum` are Go standard library;
they are modelled bit-for-bit from their specifications (IEEE 802.3
reflected CRC-32; RFC 1321 MD5) over ASCII byte strings, which covers
every URL, path and replica key the balancer hashes. -/

/-- 32-bit rotate left. -/
def rotl32 (x n : Nat) : Nat := ((x <<< n) ||| (x >>> (32 - n))) % 4294967296

/-- One bit step of the reflected CRC-32 with polynomial `0xEDB88320`. -/
def crc32Bit (crc : Nat) : Nat :=
  if crc % 2 = 1 then (crc / 2) ^^^ 0xEDB88320 else crc / 2

/-- Fold one byte into the CRC. -/
def crc32Byte (crc : Nat) (b : Nat) : Nat :=
  (List.range 8).foldl (fun c _ => crc32Bit c) (crc ^^^ b)

/-- `crc32.ChecksumIEEE` of an ASCII string. -/
def crc32 (s : String) : Nat :=
  (s.toList.foldl (fun c ch => crc32Byte c ch.toNat) 0xFFFFFFFF) ^^^ 0xFFFFFFFF

/-- The 64 MD5 sine constants. -/
def md5K : List Nat :=
  [0xd76aa478, 0xe8c7b756, 0x242070db, 0xc1bdceee,
   0xf57c0faf, 0x4787c62a, 0xa8304613, 0xfd469501,
   0x698098d8, 0x8b44f7af, 0xffff5bb1, 0x895cd7be,
   0x6b901122, 0xfd987193, 0xa679438e, 0x49b40821,
   0xf61e2562, 0xc040b340, 0x265e5a51, 0xe9b6c7aa,
   0xd62f105d, 0x02441453, 0xd8a1e681, 0xe7d3fbc8,
   0x21e1cde6, 0xc33707d6, 0xf4d50d87, 0x455a14ed,
   0xa9e3e905, 0xfcefa3f8, 0x676f02d9, 0x8d2a4c8a,
   0xfffa3942, 0x8771f681, 0x6d9d6122, 0xfde5380c,
   0xa4beea44, 0x4bdecfa9, 0xf6bb4b60, 0xbebfbc70,
   0x289b7ec6, 0xeaa127fa, 0xd4ef3085, 0x04881d05,
   0xd9d4d039, 0xe6db99e5, 0x1fa27cf8, 0xc4ac5665,
   0xf4292244, 0x432aff97, 0xab9423a7, 0xfc93a039,
   0x655b59c3, 0x8f0ccc92, 0xffeff47d, 0x85845dd1,
   0x6fa87e4f, 0xfe2ce6e0, 0xa3014314, 0x4e0811a1,
   0xf7537e82, 0xbd3af235, 0x2ad7d2bb, 0xeb86d391]

/-- The MD5 per-round rotate amounts. -/
def md5S : List Nat :=
  [7, 12, 17, 22, 7, 12, 17, 22, 7, 12, 17, 22, 7, 12, 17, 22,
   5, 9, 14, 20, 5, 9, 14, 20, 5, 9, 14, 20, 5, 9, 14, 20,
   4, 11, 16, 23, 4, 11, 16, 23, 4, 11, 16, 23, 4, 11, 16, 23,
   6, 10, 15, 21, 6, 10, 15, 21, 6, 10, 15, 21, 6, 10, 15, 21]

/-- One of the 64 MD5 rounds on state `(a,b,c,d)`. -/
def md5Round (M : List Nat) (st : Nat × Nat × Nat × Nat) (i : Nat) :
    Nat × Nat × Nat × Nat :=
  let a := st.1
  let b := st.2.1
  let c := st.2.2.1
  let d := st.2.2.2
  let fg : Nat × Nat :=
    if i < 16 then ((b &&& c) ||| ((b ^^^ 0xFFFFFFFF) &&& d), i)
    else if i < 32 then ((d &&& b) ||| ((d ^^^ 0xFFFFFFFF) &&& c), (5 * i + 1) % 16)
    else if i < 48 then (b ^^^ c ^^^ d, (3 * i + 5) % 16)
    else (c ^^^ (b ||| (d ^^^ 0xFFFFFFFF)), (7 * i) % 16)
  let f2 := (fg.1 + a + md5K.getD i 0 + M.getD fg.2 0) % 4294967296
  (d, (b + rotl32 f2 (md5S.getD i 0)) % 4294967296, b, c)

/-- Process one 512-bit block. -/
def md5Block (M : List Nat) (st : Nat × Nat × Nat × Nat) : Nat × Nat × Nat × Nat :=
  let r := (List.range 64).foldl (md5Round M) st
  ((st.1 + r.1) % 4294967296, (st.2.1 + r.2.1) % 4294967296,
   (st.2.2.1 + r.2.2.1) % 4294967296, (st.2.2.2 + r.2.2.2) % 4294967296)

/-- Little-endian 32-bit words from bytes. -/
def bytesToWords : List Nat → List Nat
  | b0 :: b1 :: b2 :: b3 :: rest =>
    (b0 + 256 * b1 + 65536 * b2 + 16777216 * b3) :: bytesToWords rest
  | _ => []

/-- `count` little-endian bytes of `n`. -/
def toLEBytes : Nat → Nat → List Nat
  | _, 0 => []
  | n, Nat.succ k => (n % 256) :: toLEBytes (n / 256) k

/-- RFC 1321 padding: `0x80`, zeros to 56 mod 64, 64-bit length. -/
def md5Pad (msg : List Nat) : List Nat :=
  let len := msg.length
  let zeros := (119 - (len % 64)) % 64
  msg ++ [0x80] ++ List.replicate zeros 0 ++ toLEBytes (len * 8) 8

/-- Consume the padded message 64 bytes at a time (the fuel, at least
the byte count, makes the recursion structural). -/
def md5Chunks : Nat → List Nat → Nat × Nat × Nat × Nat → Nat × Nat × Nat × Nat
  | _, [], st => st
  | 0, _, st => st
  | Nat.succ fuel, bytes, st =>
    md5Chunks fuel (bytes.drop 64) (md5Block (bytesToWords (bytes.take 64)) st)

/-- Lower-case hex digit. -/
def hexDigit (n : Nat) : Char :=
  if n < 10 then Char.ofNat (48 + n) else Char.ofNat (87 + n)

/-- Two hex digits of a byte. -/
def byteToHex (b : Nat) : List Char := [hexDigit (b / 16), hexDigit (b % 16)]

/-- `hex.EncodeToString(md5.Sum(s))`: the 32-hex-character MD5 digest. -/
def md5Hex (s : String) : String :=
  let msg := md5Pad (s.toList.map Char.toNat)
  let st := md5Chunks msg.length msg (0x67452301, 0xefcdab89, 0x98badcfe, 0x10325476)
  let bytes := toLEBytes st.1 4 ++ toLEBytes st.2.1 4 ++ toLEBytes st.2.2.1 4 ++
    toLEBytes st.2.2.2 4
  String.mk (bytes.map byteToHex).flatten

/-! ### Go map primitives (assignment replaces, lookup finds the unique
entry). -/

/-- Go map assignment `m[key] = v`. -/
def mapInsert [DecidableEq α] (key : α) (v : β) : List (α × β) → List (α × β)
  | [] => [(key, v)]
  | (k, w) :: rest =>
    if k = key then (k, v) :: rest else (k, w) :: mapInsert key v rest

/-- Go map read `m[key]` (as an Option). -/
def mapGet [DecidableEq α] (m : List (α × β)) (key : α) : Option β :=
  match m with
  | [] => none
  | (k, w) :: rest => if k = key then some w else mapGet rest key

/-! ### Consistent hash ring, from session_persistence.go
(`ConsistentHashRing`, `NewConsistentHashRing`, `GetNode`).  The Go
`map[uint32]*Process` stores pointers into the ring's own process list;
the model stores indices into `processes`. -/

/-- Mirror of the Go struct `ConsistentHashRing`. -/
structure ConsistentHashRing where
  ringMap : List (Nat × Nat)
  sortedHashes : List Nat
  replicaCount : Nat
  processes : List Process
deriving Repr, DecidableEq

/-- Ascending insertion (used to model `sort.Slice` on the hash list –
the result, an ascending permutation, is identical since equal `uint32`
keys are indistinguishable). -/
def insertSorted (x : Nat) : List Nat → List Nat
  | [] => [x]
  | y :: ys => if x ≤ y then x :: y :: ys else y :: insertSorted x ys

/-- Ascending sort of the hash list. -/
def sortHashes : List Nat → List Nat
  | [] => []
  | x :: xs => insertSorted x (sortHashes xs)

/-- `NewConsistentHashRing`: per backend, `replicaCount × weight` virtual
nodes hashed as `"<url>:<replica_index>"`; ring entries map hash to the
backend; the hash list is then sorted ascending. -/
def newConsistentHashRing (configs : List BackendConfig) : ConsistentHashRing :=
  let step := fun (ch : ConsistentHashRing) (c : BackendConfig) =>
    let weight := normWeight c.weight
    let procIdx := ch.processes.length
    let proc : Process :=
      { url := c.url, alive := true, errorCount := 0, weight := weight,
        current := 0, activeConnections := 0 }
    let hashes := (List.range (ch.replicaCount * weight.toNat)).map fun i =>
      crc32 (c.url ++ ":" ++ toString i)
    { ringMap := hashes.foldl (fun m h => mapInsert h procIdx m) ch.ringMap
      sortedHashes := ch.sortedHashes ++ hashes
      replicaCount := ch.replicaCount
      processes := ch.processes ++ [proc] }
  let ch1 := configs.foldl step
    { ringMap := [], sortedHashes := [], replicaCount := 100, processes := [] }
  { ch1 with sortedHashes := sortHashes ch1.sortedHashes }

/-- `sort.Search(n, f)`: by contract, the least `i < n` with `f i`, else
`n`. -/
def sortSearch (n : Nat) (f : Nat → Bool) : Nat :=
  match (List.range n).findIdx? f with
  | some i => i
  | none => n

/-- Dereference ring slot `idx`: `ch.ring[ch.sortedHashes[idx]]`. -/
def procAt (ch : ConsistentHashRing) (idx : Nat) : Option Process :=
  match mapGet ch.ringMap (ch.sortedHashes.getD idx 0) with
  | some pidx => ch.processes[pidx]?
  | none => none

/-- The dead-entry walk of `GetNode`: `for i := 0; i <
len(ch.processes); i++` over ring slots `(idx+i) % len(sortedHashes)`,
returning the first alive backend. -/
def ringWalk (ch : ConsistentHashRing) (idx : Nat) : Option Process :=
  (List.range ch.processes.length).findSome? fun i =>
    match procAt ch ((idx + i) % ch.sortedHashes.length) with
    | some p => if p.alive then some p else none
    | none => none

/-- `ConsistentHashRing.GetNode`. -/
def getNode (ch : ConsistentHashRing) (key : String) : Option Process :=
  if ch.ringMap.length = 0 then none
  else
    let hash := crc32 key
    let idx0 := sortSearch ch.sortedHashes.length
      (fun i => decide (hash ≤ ch.sortedHashes.getD i 0))
    let idx := if idx0 = ch.sortedHashes.length then 0 else idx0
    match procAt ch idx with
    | none => none
    | some p => if p.alive then some p else ringWalk ch idx

/-! ### Session persistence, from session_persistence.go.  The Go struct
holds its OWN `[]*Process` (built by `NewSessionPersistenceBalancer`), a
base balancer with its OWN separate `[]*Process` (built by
`NewLoadBalancer` / `NewLeastConnectionsBalancer`), and a hash ring with
a THIRD copy; the model keeps the three copies separate exactly as the
source does. -/

/-- Mirror of the Go `LoadBalancerAlgorithm` enumeration. -/
inductive LoadBalancerAlgorithm where
  | roundRobin
  | weightedRoundRobin
  | leastConnections
  | pathBasedRouting
deriving Repr, DecidableEq

/-- Mirror of the Go `PersistenceMethod` enumeration. -/
inductive PersistenceMethod where
  | noPersistence
  | cookiePersistence
  | ipHashPersistence
  | consistentHashPersistence
deriving Repr, DecidableEq

/-- The `BaseLB interface{}` field: the type-switch cases the dispatch
code handles. -/
inductive BaseLB where
  | wrr : WRRBalancer → BaseLB
  | lc : LCBalancer → BaseLB
deriving Repr, DecidableEq

/-- Mirror of the Go struct `SessionPersistenceBalancer` (`CookieTTL` is
kept in seconds). -/
structure SessionPersistenceBalancer where
  processPack : List Process
  baseLB : BaseLB
  persistenceMethod : PersistenceMethod
  consistentHashRing : ConsistentHashRing
  cookieName : String
  cookieTTLSeconds : Nat
  ipToBackendMap : List (String × Nat)
  backendToIndexMap : List (String × Nat)
deriving Repr, DecidableEq

/-- `NewSessionPersistenceBalancer`: build the base balancer by
algorithm, then a fresh process list (Current is left at its zero
value), the backend-URL-to-index map, and the hash ring. -/
def newSessionPersistenceBalancer (configs : List BackendConfig)
    (algorithm : LoadBalancerAlgorithm) (method : PersistenceMethod) :
    SessionPersistenceBalancer :=
  let baseLB := match algorithm with
    | LoadBalancerAlgorithm.leastConnections => BaseLB.lc (newLeastConnectionsBalancer configs)
    | _ => BaseLB.wrr (newLoadBalancer configs)
  { processPack := configs.map fun c =>
      { url := c.url, alive := true, errorCount := 0,
        weight := normWeight c.weight, current := 0, activeConnections := 0 }
    baseLB := baseLB
    persistenceMethod := method
    consistentHashRing := newConsistentHashRing configs
    cookieName := "GOLB_SESSION"
    cookieTTLSeconds := 86400
    ipToBackendMap := []
    backendToIndexMap := configs.enum.foldl (fun m ic => mapInsert ic.2.url ic.1 m) [] }

/-- Dispatch through the base balancer (the repeated type-switch in
session_persistence.go), returning the selected process VALUE (the Go
code only reads its URL) and the possibly credit-mutated base. -/
def baseGetNextInstance : BaseLB → Option Process × BaseLB
  | BaseLB.wrr lb =>
    match wrrGetNextInstance lb with
    | (none, lb2) => (none, BaseLB.wrr lb2)
    | (some j, lb2) => (lb2.processPack[j]?, BaseLB.wrr lb2)
  | BaseLB.lc lb =>
    ((lcGetNextInstance lb).bind (fun j => lb.processPack[j]?), BaseLB.lc lb)

/-- `strconv.Atoi` over the characters of a string: optional sign, at
least one digit, nothing else.  (Out-of-range values, which Go also
rejects, cannot arise for the indices the balancer round-trips and are
not modelled.) -/
def parseDigits : List Char → Nat → Option Nat
  | [], acc => some acc
  | c :: rest, acc =>
    if '0' ≤ c ∧ c ≤ '9' then parseDigits rest (acc * 10 + (c.toNat - 48)) else none

/-- `strconv.Atoi`. -/
def atoi : List Char → Option Int
  | [] => none
  | '+' :: rest =>
    if rest = [] then none else (parseDigits rest 0).map Int.ofNat
  | '-' :: rest =>
    if rest = [] then none else (parseDigits rest 0).map fun n => -(n : Int)
  | s => (parseDigits s 0).map Int.ofNat

/-- The sticky branch of `getInstanceByCookie`: split the cookie value
on ":", demand exactly two parts, parse the first as an integer, check
range and aliveness.  NOTE: the second part — the MD5 fingerprint — is
never examined. -/
def cookieLookupIdx (pack : List Process) : Option String → Option Nat
  | none => none
  | some v =>
    if v = "" then none
    else
      match splitChar ':' v.data with
      | [part0, _part1] =>
        match atoi part0 with
        | none => none
        | some idx =>
          if 0 ≤ idx ∧ idx < (pack.length : Int) then
            match pack[idx.toNat]? with
            | some backend => if backend.alive then some idx.toNat else none
            | none => none
          else none
      | _ => none

/-- `getInstanceByCookie`: sticky hit, else the base balancer. -/
def getInstanceByCookie (lb : SessionPersistenceBalancer) (r : Request) :
    Option Process × BaseLB :=
  match cookieLookupIdx lb.processPack (getCookie r lb.cookieName) with
  | some i => (lb.processPack[i]?, lb.baseLB)
  | none => baseGetNextInstance lb.baseLB

/-- Host part of `net.SplitHostPort` (the model keeps only what the
balancer uses: the split succeeds exactly when a colon is present, and
yields the part before the last colon). -/
def splitHostPort (s : String) : Option String :=
  if s.toList.contains ':' then
    some (String.mk ((((s.toList).reverse.dropWhile (fun c => c ≠ ':')).drop 1).reverse))
  else none

/-- `getClientIP`: first comma-separated token of `X-Forwarded-For`,
else the host of the peer address, else the empty string. -/
def getClientIP (r : Request) : String :=
  let xff := getHeader r "X-Forwarded-For"
  if xff ≠ "" then
    match splitChar ',' xff.toList with
    | ip :: _ => String.mk (trimChars ip)
    | [] => ""
  else if r.remoteAddr ≠ "" then
    match splitHostPort r.remoteAddr with
    | some host => host
    | none => ""
  else ""

/-- The remembered-mapping branch of `getInstanceByIPHash`: a stored
index is used only when it is in range and its target is alive. -/
def ipHashLookup (lb : SessionPersistenceBalancer) (ip : String) : Option Process :=
  match mapGet lb.ipToBackendMap ip with
  | some index =>
    match lb.processPack[index]? with
    | some p => if p.alive then some p else none
    | none => none
  | none => none

def getInstanceByIPHash (lb : SessionPersistenceBalancer) (r : Request) :
    Option Process × BaseLB × List (String × Nat) :=
  let ip := getClientIP r
  if ip = "" then
    let (p, base2) := baseGetNextInstance lb.baseLB
    (p, base2, lb.ipToBackendMap)
  else
    match ipHashLookup lb ip with
    | some p => (some p, lb.baseLB, lb.ipToBackendMap)
    | none =>
      let (target, base2) := baseGetNextInstance lb.baseLB
      match target with
      | some p =>
        (some p, base2,
          mapInsert ip ((mapGet lb.backendToIndexMap p.url).getD 0) lb.ipToBackendMap)
      | none => (none, base2, lb.ipToBackendMap)

/-- `getInstanceByConsistentHash`: empty path delegates to the base,
otherwise the ring lookup keyed on the path. -/
def getInstanceByConsistentHash (lb : SessionPersistenceBalancer) (r : Request) :
    Option Process × BaseLB :=
  if r.urlPath = "" then baseGetNextInstance lb.baseLB
  else (getNode lb.consistentHashRing r.urlPath, lb.baseLB)

/-- `SessionPersistenceBalancer.GetNextInstance`: dispatch by
persistence method; a nil process becomes the "no available backends"
error, modelled as `none`; otherwise the target URL is returned. -/
def sessionGetNextInstance (lb : SessionPersistenceBalancer) (r : Request) :
    Option String × SessionPersistenceBalancer :=
  match lb.persistenceMethod with
  | PersistenceMethod.cookiePersistence =>
    let pb := getInstanceByCookie lb r
    (pb.1.map Process.url, { lb with baseLB := pb.2 })
  | PersistenceMethod.ipHashPersistence =>
    let pbm := getInstanceByIPHash lb r
    (pbm.1.map Process.url,
      { lb with baseLB := pbm.2.1, ipToBackendMap := pbm.2.2 })
  | PersistenceMethod.consistentHashPersistence =>
    let pb := getInstanceByConsistentHash lb r
    (pb.1.map Process.url, { lb with baseLB := pb.2 })
  | PersistenceMethod.noPersistence =>
    let pb := baseGetNextInstance lb.baseLB
    (pb.1.map Process.url, { lb with baseLB := pb.2 })

/-- Result of a proxied request. -/
inductive ProxyResult where
  | response (status : Nat) (body : String)
  | outOfFuel
deriving Repr, DecidableEq

/-- `WeightedRoundRobinBalancer.ProxyRequest` (part_020): select; if no
backend, 503; on a transport failure (decided by the oracle `failAt` at
each global attempt number) run the error handler — `handleFailure` on
the selected process — and re-enter `ProxyRequest`.  The fuel only
bounds the recursion depth of the model; the returned list records the
backend index of every attempt. -/
def wrrProxyRequest : Nat → WRRBalancer → (Nat → Bool) → Nat →
    ProxyResult × List Nat × WRRBalancer
  | 0, lb, _, _ => (ProxyResult.outOfFuel, [], lb)
  | Nat.succ fuel, lb, failAt, attempt =>
    match wrrGetNextInstance lb with
    | (none, lb2) => (ProxyResult.response 503 "No healthy backends available", [], lb2)
    | (some j, lb2) =>
      if failAt attempt then
        let lb3 : WRRBalancer :=
          { lb2 with processPack := updateAt j (fun p => (handleFailure p).1) lb2.processPack }
        let rec2 := wrrProxyRequest fuel lb3 failAt (attempt + 1)
        (rec2.1, j :: rec2.2.1, rec2.2.2)
      else (ProxyResult.response 200 "", [j], lb2)

/-- The `for _, p := range lb.ProcessPack` search of
`SessionPersistenceBalancer.ProxyRequest` locating the session-pack
entry whose URL equals the target's. -/
def findByUrl (pack : List Process) (url : String) : Option Nat :=
  pack.findIdx? fun p => p.url == url

/-- `SessionPersistenceBalancer.ProxyRequest` for plain-HTTP requests:
`GetNextInstance` (503 with body on error), locate the session-pack
process by URL (500 if absent), then proxy; on a transport failure the
error handler runs `handleFailure` on the SESSION-pack process and
re-enters `ProxyRequest`.  Cookie setting on the response does not
change dispatch state and is not modelled. -/
def sessionProxyRequest : Nat → SessionPersistenceBalancer → (Nat → Bool) → Nat → Request →
    ProxyResult × List String × SessionPersistenceBalancer
  | 0, lb, _, _, _ => (ProxyResult.outOfFuel, [], lb)
  | Nat.succ fuel, lb, failAt, attempt, r =>
    match sessionGetNextInstance lb r with
    | (none, lb2) => (ProxyResult.response 503 "No healthy backends available", [], lb2)
    | (some targetUrl, lb2) =>
      match findByUrl lb2.processPack targetUrl with
      | none => (ProxyResult.response 500 "Backend not found", [], lb2)
      | some j =>
        if failAt attempt then
          let lb3 : SessionPersistenceBalancer :=
            { lb2 with processPack := updateAt j (fun p => (handleFailure p).1) lb2.processPack }
          let rec2 := sessionProxyRequest fuel lb3 failAt (attempt + 1) r
          (rec2.1, targetUrl :: rec2.2.1, rec2.2.2)
        else (ProxyResult.response 200 "", [targetUrl], lb2)

/-- The process list of the base balancer. -/
def basePack : BaseLB → List Process
  | BaseLB.wrr lb => lb.processPack
  | BaseLB.lc lb => lb.processPack

/-- Error budget of a pool: a failure against an alive backend strictly
decreases it, which bounds the retry recursion of `ProxyRequest`. -/
def procMeasure (p : Process) : Nat :=
  if p.alive then 1 + (3 - p.errorCount).toNat else 0

/-- Total error budget of a pool. -/
def wrrMeasure (lb : WRRBalancer) : Nat :=
  (lb.processPack.map procMeasure).sum

/-- A plain HTTP request carrying no cookie and no headers. -/
def rPlain : Request :=
  { method := "GET", headers := [], cookies := [], urlPath := "/", remoteAddr := "", tls := false }

/-- The session-pack entry of a one-backend cookie-persistence balancer
after some failures: alive flag `b`, error count `e`. -/
def badProc (e : Int) (b : Bool) : Process :=
  { url := "http://localhost:8001"
    alive := b
    errorCount := e
    weight := 1
    current := 0
    activeConnections := 0 }

/-- The reachable states of the one-backend cookie-persistence system
under repeated failures: only the session-pack copy changes; the base
WRR balancer's own copy is a fixed point of dispatching and stays
alive. -/
def badState2 (e : Int) (b : Bool) : SessionPersistenceBalancer :=
  { processPack := [badProc e b]
    baseLB := BaseLB.wrr
      { processPack := [{ url := "http://localhost:8001"
                          alive := true
                          errorCount := 0
                          weight := 1
                          current := 1
                          activeConnections := 0 }]
        totalWeight := 1 }
    persistenceMethod := PersistenceMethod.cookiePersistence
    consistentHashRing := newConsistentHashRing [⟨"http://localhost:8001", 1⟩]
    cookieName := "GOLB_SESSION"
    cookieTTLSeconds := 86400
    ipToBackendMap := []
    backendToIndexMap := [("http://localhost:8001", 0)] }

/-- The slot where `GetNode` starts: the least index whose hash is
`≥ CRC32(key)`, wrapping to 0 — the binary-search-plus-wrap of the
source. -/
def ringStartIdx (ch : ConsistentHashRing) (key : String) : Nat :=
  let idx0 := sortSearch ch.sortedHashes.length
    (fun i => decide (crc32 key ≤ ch.sortedHashes.getD i 0))
  if idx0 = ch.sortedHashes.length then 0 else idx0

/-- The ring of the C6 counterexample: the real two-backend construction
(100 virtual nodes each), with backend 0 marked dead as the health
accountant leaves it after three failures. -/
def chC6 : ConsistentHashRing :=
  let ch := newConsistentHashRing
    [⟨"http://localhost:8001", 1⟩, ⟨"http://localhost:8002", 1⟩]
  { ch with processes := updateAt 0 (fun p => { p with alive := false }) ch.processes }

/-! ## Theorems -/

theorem updateAt_length (j : Nat) (f : α → α) (xs : List α) :
    (updateAt j f xs).length = xs.length := by
  induction xs generalizing j with
  | nil => cases j <;> rfl
  | cons x xs ih =>
    cases j with
    | zero => simp [updateAt]
    | succ j => simp [updateAt, ih]

theorem updateAt_get? (j : Nat) (f : α → α) (xs : List α) (i : Nat) :
    (updateAt j f xs)[i]? =
      if i = j then (xs[i]?).map f else xs[i]? := by
  induction xs generalizing i j with
  | nil => cases j <;> simp [updateAt]
  | cons x xs ih =>
    cases j with
    | zero =>
      cases i with
      | zero => simp [updateAt]
      | succ i => simp [updateAt, Nat.succ_ne_zero]
    | succ j =>
      cases i with
      | zero => simp [updateAt, (Nat.succ_ne_zero j).symm]
      | succ i =>
        simp [updateAt, ih, Nat.succ_inj]

theorem one_le_normWeight (w : Int) : 1 ≤ normWeight w := by
  unfold normWeight; split <;> omega

theorem wrrScan_some (ps : List Process) (i : Nat) (m : Int) (sel : Option Nat) (j : Nat)
    (hm : 0 ≤ m) (h : wrrScan ps i m sel = some j) :
    sel = some j ∨ ∃ k p, ps[k]? = some p ∧ p.alive = true ∧ 0 < p.current ∧ j = i + k := by
  induction ps generalizing i m sel with
  | nil => exact Or.inl h
  | cons p ps ih =>
    rw [wrrScan] at h
    split at h
    · rename_i hcond
      rcases ih (i + 1) p.current (some i) (le_of_lt (lt_of_le_of_lt hm hcond.2)) h with h0 | h0
      · have hij : j = i := by simpa using h0.symm
        exact Or.inr ⟨0, p, by simp, hcond.1, lt_of_le_of_lt hm hcond.2, by omega⟩
      · rcases h0 with ⟨k, q, hq, ha, hc, hj⟩
        exact Or.inr ⟨k + 1, q, by simpa using hq, ha, hc, by omega⟩
    · rcases ih (i + 1) m sel hm h with h0 | h0
      · exact Or.inl h0
      · rcases h0 with ⟨k, q, hq, ha, hc, hj⟩
        exact Or.inr ⟨k + 1, q, by simpa using hq, ha, hc, by omega⟩

theorem wrrScan_isSome_of_sel (ps : List Process) (i : Nat) (m : Int) (j0 : Nat) :
    (wrrScan ps i m (some j0)).isSome := by
  induction ps generalizing i m j0 with
  | nil => rfl
  | cons p ps ih =>
    rw [wrrScan]
    split
    · exact ih _ _ _
    · exact ih _ _ _

theorem wrrScan_isSome (ps : List Process) (i : Nat) (m : Int) (sel : Option Nat)
    (h : ∃ p ∈ ps, p.alive = true ∧ m < p.current) :
    (wrrScan ps i m sel).isSome := by
  induction ps generalizing i m sel with
  | nil => simp at h
  | cons p ps ih =>
    rw [wrrScan]
    split
    · cases sel' : wrrScan ps (i + 1) p.current (some i)
      · have := wrrScan_isSome_of_sel ps (i + 1) p.current i
        rw [sel'] at this; exact absurd this (by simp)
      · simp [sel']
    · rename_i hnot
      rcases h with ⟨q, hq, ha, hc⟩
      rcases List.mem_cons.mp hq with rfl | hq
      · exact absurd ⟨ha, hc⟩ hnot
      · exact ih _ _ _ ⟨q, hq, ha, hc⟩

/-! ### Arithmetic helpers for the smooth-WRR analysis -/

theorem exists_pos_of_sum_pos (l : List Int) (h : 0 < l.sum) : ∃ c ∈ l, 0 < c := by
  induction l with
  | nil => simp at h
  | cons x xs ih =>
    rcases le_or_lt x 0 with hx | hx
    · have hxs : 0 < xs.sum := by
        have := List.sum_cons (a := x) (l := xs)
        omega
      rcases ih hxs with ⟨c, hc, hcpos⟩
      exact ⟨c, List.mem_cons_of_mem _ hc, hcpos⟩
    · exact ⟨x, List.mem_cons_self _ _, hx⟩

theorem length_le_sum (ws : List Int) (h : ∀ w ∈ ws, 1 ≤ w) :
    (ws.length : Int) ≤ ws.sum := by
  induction ws with
  | nil => simp
  | cons w ws ih =>
    have h1 : 1 ≤ w := h w (List.mem_cons_self _ _)
    have h2 := ih (fun x hx => h x (List.mem_cons_of_mem _ hx))
    simp only [List.length_cons, List.sum_cons]
    push_cast
    omega

theorem list_sum_map_add (l : List α) (f g : α → Int) :
    (l.map fun x => f x + g x).sum = (l.map f).sum + (l.map g).sum := by
  induction l with
  | nil => simp
  | cons x xs ih => simp [ih]; ring

theorem sum_map_updateAt (j : Nat) (l : List α) (f : α → α) (F : α → Int)
    (x : α) (hx : l[j]? = some x) :
    ((updateAt j f l).map F).sum = (l.map F).sum + F (f x) - F x := by
  induction l generalizing j with
  | nil => simp at hx
  | cons y ys ih =>
    cases j with
    | zero =>
      simp only [List.getElem?_cons_zero, Option.some.injEq] at hx
      subst hx
      simp [updateAt]; ring
    | succ j =>
      simp only [List.getElem?_cons_succ] at hx
      simp [updateAt, ih j hx]; ring

theorem wrrInv_init (configs : List BackendConfig) :
    WRRInv (configs.map fun c => normWeight c.weight) (newLoadBalancer configs) := by
  constructor
  · simp [newLoadBalancer, List.map_map]
  · intro p hp
    simp only [newLoadBalancer, List.mem_map] at hp
    rcases hp with ⟨c, _, rfl⟩
    rfl
  · rfl
  · intro p hp
    simp only [newLoadBalancer, List.mem_map] at hp
    rcases hp with ⟨c, hc, rfl⟩
    simp only []
    have h1 : 1 ≤ normWeight c.weight := one_le_normWeight _
    have h2 : (1 : Int) ≤ (configs.map fun c => normWeight c.weight).sum := by
      have hlen : 1 ≤ (configs.map fun c => normWeight c.weight).length := by
        simp [List.length_map]
        exact List.length_pos.mpr (by rintro rfl; simp at hc)
      have := length_le_sum (configs.map fun c => normWeight c.weight)
        (by intro w hw; rcases List.mem_map.mp hw with ⟨c, _, rfl⟩; exact one_le_normWeight _)
      have : (1 : Int) ≤ ((configs.map fun c => normWeight c.weight).length : Int) := by
        exact_mod_cast hlen
      omega
    omega
  · simp [newLoadBalancer, List.map_map]; rfl

theorem mem_of_getElem?_eq (l : List α) (k : Nat) (a : α) (h : l[k]? = some a) : a ∈ l := by
  have := List.getElem?_eq_some.mp h
  rcases this with ⟨hk, rfl⟩
  exact List.getElem_mem hk

/-- One dispatch step under the all-alive invariant: the scan selects an
index `j` with positive credit; the new pack adds each backend's weight
to its credit and subtracts the total weight at position `j`. -/
theorem wrr_step (ws : List Int) (lb : WRRBalancer) (hinv : WRRInv ws lb)
    (hws : ∀ w ∈ ws, 1 ≤ w) (hne : ws ≠ []) :
    ∃ j pj, lb.processPack[j]? = some pj ∧ 0 < pj.current ∧
      (wrrGetNextInstance lb).1 = some j ∧
      (wrrGetNextInstance lb).2.totalWeight = lb.totalWeight ∧
      ∀ k : Nat, (wrrGetNextInstance lb).2.processPack[k]? =
        (lb.processPack[k]?).map fun p =>
          { p with current := p.current + p.weight - (if k = j then ws.sum else 0) } := by
  have hpackne : lb.processPack ≠ [] := by
    intro h0
    apply hne
    rw [← hinv.weights, h0]
    rfl
  have hsumpos : 0 < ws.sum := by
    have h1 : 1 ≤ ws.length := List.length_pos.mpr hne
    have h2 := length_le_sum ws hws
    have h3 : (1 : Int) ≤ (ws.length : Int) := by exact_mod_cast h1
    omega
  have hcpos : ∃ p ∈ lb.processPack, p.alive = true ∧ (0 : Int) < p.current := by
    have : 0 < (lb.processPack.map Process.current).sum := by rw [hinv.csum]; exact hsumpos
    rcases exists_pos_of_sum_pos _ this with ⟨c, hc, hcpos⟩
    rcases List.mem_map.mp hc with ⟨p, hp, rfl⟩
    exact ⟨p, hp, hinv.alive p hp, hcpos⟩
  have hscan : ∃ j, wrrScan lb.processPack 0 0 none = some j := by
    have := wrrScan_isSome lb.processPack 0 0 none hcpos
    cases h : wrrScan lb.processPack 0 0 none
    · rw [h] at this; exact absurd this (by simp)
    · exact ⟨_, rfl⟩
  rcases hscan with ⟨j, hscan⟩
  have hj : ∃ pj, lb.processPack[j]? = some pj ∧ pj.alive = true ∧ 0 < pj.current := by
    rcases wrrScan_some lb.processPack 0 0 none j (le_refl 0) hscan with h0 | h0
    · exact absurd h0 (by simp)
    · rcases h0 with ⟨k, p, hp, ha, hc, hk⟩
      rcases Nat.zero_add k ▸ hk with rfl
      exact ⟨p, hp, ha, hc⟩
  rcases hj with ⟨pj, hpj, hpjalive, hpjpos⟩
  have hempty : lb.processPack.isEmpty = false := by
    cases h : lb.processPack
    · exact absurd h hpackne
    · rfl
  refine ⟨j, pj, hpj, hpjpos, ?_, ?_, ?_⟩
  · simp [wrrGetNextInstance, hempty, hscan]
  · simp [wrrGetNextInstance, hempty, hscan]
  · intro k
    simp only [wrrGetNextInstance, hempty, Bool.false_eq_true, if_false, hscan]
    rw [updateAt_get?, List.getElem?_map]
    by_cases hkj : k = j
    · subst hkj
      rw [if_pos rfl, hpj]
      simp only [Option.map_some']
      rw [if_pos hpjalive]
      simp [hinv.total]
    · rw [if_neg hkj]
      cases hk : lb.processPack[k]?
      · simp
      · rename_i p
        have hpmem := mem_of_getElem?_eq _ _ _ hk
        simp only [Option.map_some']
        rw [if_pos (hinv.alive p hpmem)]
        simp [hkj]

theorem sum_updateAt_sub (j : Nat) (l : List Int) (W : Int) (x : Int)
    (hx : l[j]? = some x) :
    (updateAt j (fun c => c - W) l).sum = l.sum - W := by
  have h := sum_map_updateAt j l (fun c => c - W) id x hx
  simp only [List.map_id, id] at h
  omega

/-- The mutated pack of a successful dispatch, read off the definition. -/
theorem wrr_step_pack (lb : WRRBalancer) (j : Nat)
    (hempty : lb.processPack.isEmpty = false)
    (hscan : wrrScan lb.processPack 0 0 none = some j) :
    (wrrGetNextInstance lb).2.processPack =
      updateAt j (fun p => { p with current := p.current - lb.totalWeight })
        (lb.processPack.map fun p =>
          if p.alive then { p with current := p.current + p.weight } else p) := by
  simp [wrrGetNextInstance, hempty, hscan]

/-- Dispatching preserves the all-alive invariant. -/
theorem wrr_inv_step (ws : List Int) (lb : WRRBalancer) (hinv : WRRInv ws lb)
    (hws : ∀ w ∈ ws, 1 ≤ w) (hne : ws ≠ []) :
    WRRInv ws (wrrGetNextInstance lb).2 := by
  rcases wrr_step ws lb hinv hws hne with ⟨j, pj, hpj, hpjpos, hsel, htot, hpt⟩
  constructor
  · rw [← hinv.weights]
    apply List.ext_getElem?
    intro k
    rw [List.getElem?_map, List.getElem?_map, hpt k]
    cases lb.processPack[k]? <;> simp
  · intro p hp
    rcases List.mem_iff_getElem?.mp hp with ⟨k, hk⟩
    rw [hpt k] at hk
    cases hq : lb.processPack[k]?
    · rw [hq] at hk; simp at hk
    · rename_i q
      rw [hq] at hk
      simp only [Option.map_some', Option.some.injEq] at hk
      have := hinv.alive q (mem_of_getElem?_eq _ _ _ hq)
      rw [← hk]
      exact this
  · rw [htot]; exact hinv.total
  · intro p hp
    rcases List.mem_iff_getElem?.mp hp with ⟨k, hk⟩
    rw [hpt k] at hk
    cases hq : lb.processPack[k]?
    · rw [hq] at hk; simp at hk
    · rename_i q
      rw [hq] at hk
      simp only [Option.map_some', Option.some.injEq] at hk
      have hqmem := mem_of_getElem?_eq _ _ _ hq
      have hql := hinv.lower q hqmem
      have hqw : 1 ≤ q.weight := by
        apply hws
        rw [← hinv.weights]
        exact List.mem_map.mpr ⟨q, hqmem, rfl⟩
      by_cases hkj : k = j
      · subst hkj
        have hqpj : q = pj := by rw [hpj] at hq; exact (Option.some.injEq _ _ ▸ hq.symm : _)
        subst hqpj
        rw [← hk]
        simp only [if_pos rfl]
        omega
      · rw [← hk]
        simp only [if_neg hkj]
        omega
  · have hempty : lb.processPack.isEmpty = false := by
      cases h : lb.processPack
      · rw [h] at hpj; simp at hpj
      · rfl
    have hscan : wrrScan lb.processPack 0 0 none = some j := by
      cases h : wrrScan lb.processPack 0 0 none
      · simp [wrrGetNextInstance, hempty, h] at hsel
      · simp [wrrGetNextInstance, hempty, h] at hsel
        rw [hsel]
    rw [wrr_step_pack lb j hempty hscan]
    have hgj : (lb.processPack.map fun p =>
        if p.alive then { p with current := p.current + p.weight } else p)[j]? =
        some { pj with current := pj.current + pj.weight } := by
      rw [List.getElem?_map, hpj]
      simp only [Option.map_some']
      rw [if_pos (hinv.alive pj (mem_of_getElem?_eq _ _ _ hpj))]
    have hsum := sum_map_updateAt j _
      (fun p => { p with current := p.current - lb.totalWeight }) Process.current
      { pj with current := pj.current + pj.weight } hgj
    rw [hsum]
    have hmc : ((lb.processPack.map fun p =>
        if p.alive then { p with current := p.current + p.weight } else p).map
          Process.current) =
        lb.processPack.map fun p => p.current + p.weight := by
      rw [List.map_map]
      apply List.map_congr_left
      intro p hp
      simp [hinv.alive p hp]
    rw [hmc, list_sum_map_add lb.processPack Process.current Process.weight]
    rw [hinv.csum, hinv.weights, hinv.total]
    simp only []
    ring

theorem wrrCount_append (lb : WRRBalancer) (i t a b : Nat) :
    wrrCount lb i t (a + b) = wrrCount lb i t a + wrrCount lb i (t + a) b := by
  induction a generalizing t with
  | zero => simp [wrrCount]
  | succ a ih =>
    have h1 : a + 1 + b = (a + b) + 1 := by omega
    rw [h1]
    show (if wrrSelAt lb t = some i then 1 else 0) + wrrCount lb i (t + 1) (a + b) = _
    rw [ih (t + 1)]
    show _ = (if wrrSelAt lb t = some i then 1 else 0) + wrrCount lb i (t + 1) a
      + wrrCount lb i (t + (a + 1)) b
    have h2 : t + 1 + a = t + (a + 1) := by omega
    rw [h2]
    omega

theorem wrr_inv_run (ws : List Int) (lb : WRRBalancer) (hinv : WRRInv ws lb)
    (hws : ∀ w ∈ ws, 1 ≤ w) (hne : ws ≠ []) (t : Nat) :
    WRRInv ws (wrrRun lb t) := by
  induction t with
  | zero => exact hinv
  | succ t ih => exact wrr_inv_step ws (wrrRun lb t) ih hws hne

/-- Closed form of the credits: after `t` dispatches, backend `k` has
credit `initial + weight·t − total·(times k was selected so far)`, and
all other fields unchanged. -/
theorem wrr_closed_form (ws : List Int) (lb : WRRBalancer) (hinv : WRRInv ws lb)
    (hws : ∀ w ∈ ws, 1 ≤ w) (hne : ws ≠ []) (t k : Nat) (p0 : Process)
    (hp0 : lb.processPack[k]? = some p0) :
    (wrrRun lb t).processPack[k]? =
      some { p0 with current :=
        p0.current + p0.weight * t - ws.sum * (wrrCount lb k 0 t : Int) } := by
  induction t with
  | zero =>
    show lb.processPack[k]? = _
    rw [hp0]
    simp [wrrCount]
  | succ t ih =>
    rcases wrr_step ws (wrrRun lb t) (wrr_inv_run ws lb hinv hws hne t) hws hne with
      ⟨j, pj, hpj, hpjpos, hsel, htot, hpt⟩
    show (wrrGetNextInstance (wrrRun lb t)).2.processPack[k]? = _
    rw [hpt k, ih]
    simp only [Option.map_some', Option.some.injEq]
    have hcount : wrrCount lb k 0 (t + 1) =
        wrrCount lb k 0 t + (if wrrSelAt lb t = some k then 1 else 0) := by
      rw [wrrCount_append lb k 0 t 1]
      simp [wrrCount]
    rw [hcount]
    have hselt : wrrSelAt lb t = some j := hsel
    by_cases hkj : k = j
    · subst hkj
      rw [if_pos rfl]
      rw [hselt]
      simp only [Option.some.injEq, if_pos rfl]
      congr 1
      push_cast
      ring
    · rw [if_neg hkj]
      rw [hselt]
      have : ¬ (some j = some k) := by simpa using fun h => hkj h.symm
      rw [if_neg this]
      congr 1
      push_cast
      ring

theorem wrr_sel_lt (ws : List Int) (lb : WRRBalancer) (hinv : WRRInv ws lb)
    (hws : ∀ w ∈ ws, 1 ≤ w) (hne : ws ≠ []) (t : Nat) :
    ∃ j, wrrSelAt lb t = some j ∧ j < ws.length := by
  rcases wrr_step ws (wrrRun lb t) (wrr_inv_run ws lb hinv hws hne t) hws hne with
    ⟨j, pj, hpj, _, hsel, _, _⟩
  refine ⟨j, hsel, ?_⟩
  have hlen : (wrrRun lb t).processPack.length = ws.length := by
    have h := (wrr_inv_run ws lb hinv hws hne t).weights
    rw [← h, List.length_map]
  rcases List.getElem?_eq_some.mp hpj with ⟨h, _⟩
  omega

theorem wrr_count_total (ws : List Int) (lb : WRRBalancer) (hinv : WRRInv ws lb)
    (hws : ∀ w ∈ ws, 1 ≤ w) (hne : ws ≠ []) (t len : Nat) :
    ∑ k in Finset.range ws.length, wrrCount lb k t len = len := by
  induction len generalizing t with
  | zero => simp [wrrCount]
  | succ len ih =>
    have hstep : ∀ k, wrrCount lb k t (len + 1) =
        (if wrrSelAt lb t = some k then 1 else 0) + wrrCount lb k (t + 1) len := by
      intro k; rfl
    simp only [hstep]
    rw [Finset.sum_add_distrib, ih (t + 1)]
    rcases wrr_sel_lt ws lb hinv hws hne t with ⟨j, hj, hjlt⟩
    have hone : ∑ k in Finset.range ws.length,
        (if wrrSelAt lb t = some k then 1 else 0) = 1 := by
      have hcong : ∀ k ∈ Finset.range ws.length,
          (if wrrSelAt lb t = some k then 1 else 0) = (if j = k then 1 else 0) := by
        intro k _
        rw [hj]
        simp
      rw [Finset.sum_congr rfl hcong, Finset.sum_ite_eq]
      simp [Finset.mem_range.mpr hjlt]
    omega

theorem list_sum_range (l : List Int) :
    l.sum = ∑ k in Finset.range l.length, l.getD k 0 := by
  induction l with
  | nil => simp
  | cons x xs ih =>
    rw [List.sum_cons, List.length_cons, Finset.sum_range_succ', ih]
    simp [List.getD_cons_succ, List.getD_cons_zero]
    ring

theorem sum_eq_of_le_of_sum_eq (n : Nat) (f g : Nat → Int)
    (hle : ∀ k ∈ Finset.range n, f k ≤ g k)
    (hsum : ∑ k in Finset.range n, f k = ∑ k in Finset.range n, g k) :
    ∀ k ∈ Finset.range n, f k = g k := by
  intro k hk
  by_contra hne0
  have hlt : f k < g k := lt_of_le_of_ne (hle k hk) hne0
  have := Finset.sum_lt_sum hle ⟨k, hk, hlt⟩
  omega

theorem normWeights_pos (configs : List BackendConfig) :
    ∀ w ∈ normWeights configs, 1 ≤ w := by
  intro w hw
  rcases List.mem_map.mp hw with ⟨c, _, rfl⟩
  exact one_le_normWeight _

theorem normWeights_ne_nil (configs : List BackendConfig) (hne : configs ≠ []) :
    normWeights configs ≠ [] := by
  intro h
  exact hne (List.map_eq_nil_iff.mp h)

theorem normWeights_sum_pos (configs : List BackendConfig) (hne : configs ≠ []) :
    0 < (normWeights configs).sum := by
  have h1 : 1 ≤ (normWeights configs).length :=
    List.length_pos.mpr (normWeights_ne_nil configs hne)
  have h2 := length_le_sum _ (normWeights_pos configs)
  have h3 : (1 : Int) ≤ ((normWeights configs).length : Int) := by exact_mod_cast h1
  omega

theorem totalWeightNat_cast (configs : List BackendConfig) (hne : configs ≠ []) :
    (totalWeightNat configs : Int) = (normWeights configs).sum :=
  Int.toNat_of_nonneg (le_of_lt (normWeights_sum_pos configs hne))

theorem newLoadBalancer_getElem? (configs : List BackendConfig) (k : Nat) :
    (newLoadBalancer configs).processPack[k]? =
      (configs[k]?).map fun c =>
        { url := c.url, alive := true, errorCount := 0,
          weight := normWeight c.weight, current := normWeight c.weight,
          activeConnections := 0 } := by
  simp [newLoadBalancer, List.getElem?_map]

/-- Over the first `W` dispatches of a fresh pool, backend `i` is selected
exactly `weight[i]` times. -/
theorem wrr_count_window_zero (configs : List BackendConfig) (hne : configs ≠ [])
    (k : Nat) (c : BackendConfig) (hc : configs[k]? = some c) :
    (wrrCount (newLoadBalancer configs) k 0 (totalWeightNat configs) : Int) =
      normWeight c.weight := by
  set lb := newLoadBalancer configs with hlb
  set ws := normWeights configs with hwsdef
  have hinv : WRRInv ws lb := wrrInv_init configs
  have hws := normWeights_pos configs
  have hwne := normWeights_ne_nil configs hne
  have hWcast := totalWeightNat_cast configs hne
  set Wn := totalWeightNat configs with hWn
  have hn : ws.length = configs.length := by rw [hwsdef]; simp [normWeights]
  -- upper bound for every index in range
  have hle : ∀ j ∈ Finset.range ws.length,
      (wrrCount lb j 0 Wn : Int) ≤ ws.getD j 0 := by
    intro j hj
    rw [Finset.mem_range] at hj
    have hjc : ∃ cj, configs[j]? = some cj := by
      rw [hn] at hj
      exact ⟨configs[j], List.getElem?_eq_getElem hj⟩
    rcases hjc with ⟨cj, hjc⟩
    have hp0 : lb.processPack[j]? = some
        { url := cj.url, alive := true, errorCount := 0,
          weight := normWeight cj.weight, current := normWeight cj.weight,
          activeConnections := 0 } := by
      rw [hlb, newLoadBalancer_getElem?, hjc]
      rfl
    have hclosed := wrr_closed_form ws lb hinv hws hwne Wn j _ hp0
    have hinvW := wrr_inv_run ws lb hinv hws hwne Wn
    have hmem := mem_of_getElem?_eq _ _ _ hclosed
    have hlow := hinvW.lower _ hmem
    simp only [] at hlow
    have hwsj : ws.getD j 0 = normWeight cj.weight := by
      have : ws[j]? = some (normWeight cj.weight) := by
        rw [hwsdef]
        simp [normWeights, List.getElem?_map, hjc]
      rw [List.getD_eq_getElem?_getD, this]
      rfl
    rw [hwsj]
    set w := normWeight cj.weight with hwdef
    set S := (wrrCount lb j 0 Wn : Int) with hSdef
    have hWpos : 0 < ws.sum := normWeights_sum_pos configs hne
    -- from the invariant lower bound: W·S ≤ w·W + W − 1 < W·(w+1)
    have hlt : ws.sum * S < ws.sum * (w + 1) := by
      rw [hWcast] at hlow
      nlinarith [hlow]
    have := lt_of_mul_lt_mul_left hlt (by omega : (0 : Int) ≤ ws.sum)
    omega
  -- the counts and the weights have the same sum
  have hsum : ∑ j in Finset.range ws.length, (wrrCount lb j 0 Wn : Int) =
      ∑ j in Finset.range ws.length, ws.getD j 0 := by
    have h1 : ∑ j in Finset.range ws.length, wrrCount lb j 0 Wn = Wn :=
      wrr_count_total ws lb hinv hws hwne 0 Wn
    have h2 : (∑ j in Finset.range ws.length, (wrrCount lb j 0 Wn : Int)) = (Wn : Int) := by
      rw [← Nat.cast_sum, h1]
    rw [h2, hWcast, list_sum_range ws]
  have hkin : k ∈ Finset.range ws.length := by
    rw [Finset.mem_range, hn]
    exact (List.getElem?_eq_some.mp hc).1
  have := sum_eq_of_le_of_sum_eq ws.length _ _ hle hsum k hkin
  rw [this]
  have : ws[k]? = some (normWeight c.weight) := by
    rw [hwsdef]
    simp [normWeights, List.getElem?_map, hc]
  rw [List.getD_eq_getElem?_getD, this]
  rfl

theorem wrrBalancer_ext (a b : WRRBalancer) (h1 : a.processPack = b.processPack)
    (h2 : a.totalWeight = b.totalWeight) : a = b := by
  cases a; cases b
  simp only [] at h1 h2
  rw [h1, h2]

theorem wrrGetNextInstance_totalWeight (lb : WRRBalancer) :
    (wrrGetNextInstance lb).2.totalWeight = lb.totalWeight := by
  rw [wrrGetNextInstance]
  split
  · rfl
  · cases h : wrrScan lb.processPack 0 0 none <;> simp [h]

/-- After exactly `W` dispatches the pool state returns to its initial
value, so the whole selection sequence has period `W`. -/
theorem wrr_period (configs : List BackendConfig) (hne : configs ≠ []) :
    wrrRun (newLoadBalancer configs) (totalWeightNat configs) = newLoadBalancer configs := by
  set lb := newLoadBalancer configs with hlb
  set ws := normWeights configs with hwsdef
  have hinv : WRRInv ws lb := wrrInv_init configs
  have hws := normWeights_pos configs
  have hwne := normWeights_ne_nil configs hne
  set Wn := totalWeightNat configs with hWn
  apply wrrBalancer_ext
  · apply List.ext_getElem?
    intro k
    cases hc : configs[k]?
    · have hk : configs.length ≤ k := by
        by_contra hlt
        push_neg at hlt
        rw [List.getElem?_eq_getElem hlt] at hc
        exact absurd hc (by simp)
      have hlen0 : lb.processPack.length = configs.length := by
        rw [hlb]; simp [newLoadBalancer]
      have hlenW : (wrrRun lb Wn).processPack.length = configs.length := by
        have h := (wrr_inv_run ws lb hinv hws hwne Wn).weights
        have : (wrrRun lb Wn).processPack.length = ws.length := by
          rw [← h, List.length_map]
        rw [this, hwsdef]
        simp [normWeights]
      rw [List.getElem?_eq_none, List.getElem?_eq_none] <;> omega
    · rename_i c
      have hp0 : lb.processPack[k]? = some
          { url := c.url, alive := true, errorCount := 0,
            weight := normWeight c.weight, current := normWeight c.weight,
            activeConnections := 0 } := by
        rw [hlb, newLoadBalancer_getElem?, hc]
        rfl
      rw [wrr_closed_form ws lb hinv hws hwne Wn k _ hp0, hp0]
      have hcount := wrr_count_window_zero configs hne k c hc
      rw [hcount]
      have hWcast := totalWeightNat_cast configs hne
      simp only [Option.some.injEq]
      congr 1
      rw [← hwsdef] at hWcast
      rw [hWcast]
      ring
  · induction Wn with
    | zero => rfl
    | succ n ih =>
      show (wrrGetNextInstance (wrrRun lb n)).2.totalWeight = lb.totalWeight
      rw [wrrGetNextInstance_totalWeight, ih]

theorem wrr_run_periodic (configs : List BackendConfig) (hne : configs ≠ []) (t : Nat) :
    wrrRun (newLoadBalancer configs) (t + totalWeightNat configs) =
      wrrRun (newLoadBalancer configs) t := by
  induction t with
  | zero =>
    show wrrRun (newLoadBalancer configs) (0 + totalWeightNat configs) = _
    rw [Nat.zero_add]
    exact wrr_period configs hne
  | succ t ih =>
    have h1 : t + 1 + totalWeightNat configs = (t + totalWeightNat configs) + 1 := by omega
    rw [h1]
    show (wrrGetNextInstance (wrrRun _ (t + totalWeightNat configs))).2 = _
    rw [ih]
    rfl

theorem wrr_sel_periodic (configs : List BackendConfig) (hne : configs ≠ []) (t : Nat) :
    wrrSelAt (newLoadBalancer configs) (t + totalWeightNat configs) =
      wrrSelAt (newLoadBalancer configs) t := by
  unfold wrrSelAt
  rw [wrr_run_periodic configs hne t]

/-- Any window of `W` consecutive dispatches contains `weight[i]`
selections of backend `i`. -/
theorem wrr_count_window (configs : List BackendConfig) (hne : configs ≠ [])
    (t k : Nat) (c : BackendConfig) (hc : configs[k]? = some c) :
    (wrrCount (newLoadBalancer configs) k t (totalWeightNat configs) : Int) =
      normWeight c.weight := by
  induction t with
  | zero => exact wrr_count_window_zero configs hne k c hc
  | succ t ih =>
    set lb := newLoadBalancer configs
    set Wn := totalWeightNat configs
    have hB : wrrCount lb k t (Wn + 1) = wrrCount lb k t Wn +
        (if wrrSelAt lb (t + Wn) = some k then 1 else 0) := by
      rw [wrrCount_append lb k t Wn 1]
      simp [wrrCount]
    have hper : wrrSelAt lb (t + Wn) = wrrSelAt lb t := wrr_sel_periodic configs hne t
    rw [hper] at hB
    have hAB : (if wrrSelAt lb t = some k then 1 else 0) + wrrCount lb k (t + 1) Wn =
        wrrCount lb k t Wn + (if wrrSelAt lb t = some k then 1 else 0) := by
      have hA2 : wrrCount lb k t (Wn + 1) =
          (if wrrSelAt lb t = some k then 1 else 0) + wrrCount lb k (t + 1) Wn := by
        show wrrCount lb k t (Wn + 1) = _
        rfl
      omega
    have : wrrCount lb k (t + 1) Wn = wrrCount lb k t Wn := by omega
    rw [this]
    exact ih

/-- C2: for a pool whose backends all remain alive, any `k·W` consecutive
Weighted Round Robin dispatches (`W` the sum of configured weights,
`k ≥ 1`, any window start `t`) select backend `i` exactly
`k·weight[i]` times. -/
theorem C2_wrr_weighted_distribution (configs : List BackendConfig) (hne : configs ≠ [])
    (t k i : Nat) (hk : 1 ≤ k) (c : BackendConfig) (hc : configs[i]? = some c) :
    (wrrCount (newLoadBalancer configs) i t (k * totalWeightNat configs) : Int) =
      k * normWeight c.weight := by
  induction k generalizing t with
  | zero => omega
  | succ k ih =>
    rcases Nat.eq_zero_or_pos k with rfl | hkpos
    · rw [Nat.one_mul]
      rw [wrr_count_window configs hne t i c hc]
      ring
    · have hsplit : (k + 1) * totalWeightNat configs =
        k * totalWeightNat configs + totalWeightNat configs := by ring
      rw [hsplit, wrrCount_append]
      push_cast [ih t hkpos]
      rw [wrr_count_window configs hne (t + k * totalWeightNat configs) i c hc]
      ring

/-- Witness for C2 at the spec's seed scenario: weights `[5,3,2]`,
`W = 10`; in the first window backend 0 is selected exactly 5 times. -/
theorem C2_wrr_weighted_distribution_witness :
    ([⟨"http://localhost:8001", 5⟩, ⟨"http://localhost:8002", 3⟩,
      ⟨"http://localhost:8003", 2⟩] : List BackendConfig) ≠ [] ∧
    (1 : Nat) ≤ 1 ∧
    ([⟨"http://localhost:8001", 5⟩, ⟨"http://localhost:8002", 3⟩,
      ⟨"http://localhost:8003", 2⟩] : List BackendConfig)[0]? =
        some (BackendConfig.mk "http://localhost:8001" 5) ∧
    (wrrCount (newLoadBalancer [⟨"http://localhost:8001", 5⟩,
      ⟨"http://localhost:8002", 3⟩, ⟨"http://localhost:8003", 2⟩]) 0 0
        (1 * totalWeightNat [⟨"http://localhost:8001", 5⟩,
          ⟨"http://localhost:8002", 3⟩, ⟨"http://localhost:8003", 2⟩]) : Int) =
      1 * normWeight 5 :=
  ⟨by decide, le_refl 1, by decide,
    C2_wrr_weighted_distribution
      [⟨"http://localhost:8001", 5⟩, ⟨"http://localhost:8002", 3⟩,
        ⟨"http://localhost:8003", 2⟩] (by decide) 0 1 0 (le_refl 1)
      (BackendConfig.mk "http://localhost:8001" 5) rfl⟩

theorem containsHeaderValue_iff (values : List String) (val : String) :
    containsHeaderValue values val = true ↔ val ∈ values := by
  induction values with
  | nil => simp [containsHeaderValue]
  | cons v rest ih =>
    rw [containsHeaderValue]
    by_cases h : val = v
    · subst h
      simp
    · rw [if_neg (by simpa using h)]
      simp [ih, h]

/-- C9 counterexample: the request
`GET`, `Connection: keep-alive, Upgrade`, `Upgrade: websocket`
is a WebSocket upgrade under the spec's case-insensitive token matching,
but `IsWebSocketRequest` rejects it: the code compares each whole header
value for exact equality, so the token list `"keep-alive, Upgrade"` does
not match. -/
theorem C9_websocket_detection_counterexample :
    isWebSocketUpgradeSpec
      { method := "GET"
        headers := [("Connection", ["keep-alive, Upgrade"]), ("Upgrade", ["websocket"])]
        cookies := [], urlPath := "/", remoteAddr := "", tls := false } = true ∧
    isWebSocketRequest
      { method := "GET"
        headers := [("Connection", ["keep-alive, Upgrade"]), ("Upgrade", ["websocket"])]
        cookies := [], urlPath := "/", remoteAddr := "", tls := false } = false := by
  constructor <;> decide

/-- C9 amended: a request is treated as a WebSocket upgrade iff its
method is GET, some `Connection` header value is EXACTLY the string
`"Upgrade"`, and some `Upgrade` header value is EXACTLY the string
`"websocket"` (case-sensitive whole-value comparison, not token
matching). -/
theorem C9_websocket_detection_amended (r : Request) :
    isWebSocketRequest r = true ↔
      r.method = "GET" ∧ "Upgrade" ∈ headerValues r "Connection" ∧
        "websocket" ∈ headerValues r "Upgrade" := by
  unfold isWebSocketRequest
  rw [Bool.and_eq_true, Bool.and_eq_true]
  rw [containsHeaderValue_iff, containsHeaderValue_iff, beq_iff_eq]
  tauto

/-- C7 (code bug): a single request dispatched to a single fresh backend
whose response body is delivered in two `Write` calls leaves that
backend's ActiveConnections at `-1`: `responseWriterInterceptor.Write`
decrements on EVERY successful write, not once per request, violating
`active_connections ≥ 0`. -/
theorem C7_active_connections_negative :
    ((lcProxyOneRequest (newLeastConnectionsBalancer
        [⟨"http://localhost:8001", 1⟩]) 2).processPack.map
          Process.activeConnections) = [-1] := by
  decide

/-- C5 counterexample: a failure recorded while the backend is already
not alive (`alive = false`, `error_count = 3`) DOES schedule another
revival timer — the error handler tests only `error_count >= 3`, never
the alive flag, so a second timer can be spawned for the same backend. -/
theorem C5_revival_timer_counterexample :
    (handleFailure
      { url := "http://localhost:8001"
        alive := false
        errorCount := 3
        weight := 1
        current := 0
        activeConnections := 0 }).2 = true := by
  decide

/-- C5 amended: every failure increments `error_count`; a revival timer
is scheduled whenever the post-increment count is `≥ 3` — at the
threshold crossing this is the dead transition with its one timer, but
failures recorded while the backend is already dead each schedule an
additional timer; the timer firing sets `alive = true` and
`error_count = 0`. -/
theorem C5_revival_timer_amended (p : Process) :
    (handleFailure p).1.errorCount = p.errorCount + 1 ∧
    ((handleFailure p).2 = true ↔ 3 ≤ p.errorCount + 1) ∧
    (handleFailure p).1.alive = (if 3 ≤ p.errorCount + 1 then false else p.alive) ∧
    (reviveLater p).alive = true ∧ (reviveLater p).errorCount = 0 := by
  by_cases h : (3 : Int) ≤ p.errorCount + 1 <;>
    simp [handleFailure, reviveLater, h]

theorem routeLoop_total (compile : String → Option σ) (matchR : σ → String → Bool)
    (pr : PathRouter ρ) (r : Request) (rcs : List RouteConfig)
    (hval : ∀ rc ∈ rcs, (lookupPool pr.backendPools rc.backendPool).isSome = true ∧
      (rc.type = RouteType.regexRoute → (compile rc.pattern).isSome = true)) :
    (∃ lb, routeLoop compile matchR pr r rcs = RouteOutcome.pool lb) ∧
    ((∀ rc ∈ rcs, routeMatches compile matchR r rc = some false) →
      routeLoop compile matchR pr r rcs = RouteOutcome.pool pr.defaultPool) := by
  induction rcs with
  | nil => exact ⟨⟨pr.defaultPool, rfl⟩, fun _ => rfl⟩
  | cons rc rest ih =>
    have hrc := hval rc (List.mem_cons_self _ _)
    have hrest := ih (fun x hx => hval x (List.mem_cons_of_mem _ hx))
    have hmatch : ∃ b, routeMatches compile matchR r rc = some b := by
      unfold routeMatches
      cases htype : rc.type
      · exact ⟨_, rfl⟩
      · have := hrc.2 htype
        cases hcomp : compile rc.pattern
        · rw [hcomp] at this; exact absurd this (by simp)
        · exact ⟨_, rfl⟩
      · exact ⟨_, rfl⟩
    rcases hmatch with ⟨b, hb⟩
    cases b
    · constructor
      · rcases hrest.1 with ⟨lb, hlb⟩
        refine ⟨lb, ?_⟩
        rw [routeLoop, hb]
        exact hlb
      · intro hall
        rw [routeLoop, hb]
        exact hrest.2 (fun x hx => hall x (List.mem_cons_of_mem _ hx))
    · constructor
      · cases hlk : lookupPool pr.backendPools rc.backendPool
        · rw [hlk] at hrc; exact absurd hrc.1 (by simp)
        · rename_i lb
          refine ⟨lb, ?_⟩
          rw [routeLoop, hb, hlk]
      · intro hall
        have := hall rc (List.mem_cons_self _ _)
        rw [hb] at this
        exact absurd this (by simp)

/-- C10: for every router built by `NewPathRouter` — whose validation
checks that every regex route pattern compiles and every referenced pool
exists — the regular-expression recompilation inside `Route` never
fails, so the discarded-error branch is unreachable and `Route` is
total: it returns a pool for every request, the default pool when no
rule matches. -/
theorem C10_route_total (compile : String → Option σ) (matchR : σ → String → Bool)
    (routes : List RouteConfig) (backendPools : List (String × ρ)) (defaultPool : String)
    (pr : PathRouter ρ)
    (hpr : newPathRouter compile routes backendPools defaultPool = some pr)
    (r : Request) :
    (∃ lb, route compile matchR pr r = RouteOutcome.pool lb) ∧
    ((∀ rc ∈ pr.routes, routeMatches compile matchR r rc = some false) →
      route compile matchR pr r = RouteOutcome.pool pr.defaultPool) := by
  unfold newPathRouter at hpr
  split at hpr
  · exact absurd hpr (by simp)
  · rename_i dflt hdf
    split at hpr
    · rename_i h1
      split at hpr
      · rename_i h2
        have hpr2 : pr = PathRouter.mk routes backendPools dflt defaultPool := by
          exact (Option.some.injEq _ _ ▸ hpr.symm : _)
        subst hpr2
        apply routeLoop_total
        intro rc hrc
        constructor
        · exact List.all_eq_true.mp h1 rc hrc
        · intro htype
          have hrc2 := List.all_eq_true.mp h2 rc hrc
          rw [htype] at hrc2
          rcases (by simpa using hrc2 :
              (RouteType.regexRoute == RouteType.regexRoute) = false ∨
                (compile rc.pattern).isSome = true) with hbad | hgood
          · exact absurd hbad (by decide)
          · exact hgood
      · exact absurd hpr (by simp)
    · exact absurd hpr (by simp)

/-- Witness for C10: a concrete router with one regex route over a
concrete (abstract-regex) compile function; `Route` returns the default
pool for a non-matching request. -/
theorem C10_route_total_witness :
    newPathRouter (fun s => if s = "(" then none else some ())
      [⟨RouteType.regexRoute, "/api/.*", "", "", "api"⟩]
      [("api", "apiPool"), ("web", "webPool")] "web" =
      some { routes := [⟨RouteType.regexRoute, "/api/.*", "", "", "api"⟩],
             backendPools := [("api", "apiPool"), ("web", "webPool")],
             defaultPool := "webPool", defaultPoolID := "web" } ∧
    (∃ lb, route (fun s => if s = "(" then none else some ())
      (fun _ _ => false)
      { routes := [⟨RouteType.regexRoute, "/api/.*", "", "", "api"⟩],
        backendPools := [("api", "apiPool"), ("web", "webPool")],
        defaultPool := "webPool", defaultPoolID := "web" }
      { method := "GET", headers := [], cookies := [], urlPath := "/",
        remoteAddr := "", tls := false } = RouteOutcome.pool lb) :=
  ⟨rfl,
    (C10_route_total (fun s => if s = "(" then none else some ())
      (fun _ _ => false)
      [⟨RouteType.regexRoute, "/api/.*", "", "", "api"⟩]
      [("api", "apiPool"), ("web", "webPool")] "web"
      { routes := [⟨RouteType.regexRoute, "/api/.*", "", "", "api"⟩],
        backendPools := [("api", "apiPool"), ("web", "webPool")],
        defaultPool := "webPool", defaultPoolID := "web" }
      rfl
      { method := "GET", headers := [], cookies := [], urlPath := "/",
        remoteAddr := "", tls := false }).1⟩

theorem handleFailure_badProc (e : Int) (b : Bool) :
    (handleFailure (badProc e b)).1 =
      badProc (e + 1) (if (3 : Int) ≤ e + 1 then false else b) := by
  by_cases h : (3 : Int) ≤ e + 1 <;> simp [handleFailure, badProc, h]

theorem session_step_one (fuel : Nat) (e : Int) (b : Bool) (a : Nat) :
    (sessionProxyRequest (fuel + 1) (badState2 e b) (fun _ => true) a rPlain).1 =
      (sessionProxyRequest fuel
        { badState2 e b with processPack := [(handleFailure (badProc e b)).1] }
        (fun _ => true) (a + 1) rPlain).1 := rfl

/-- With an always-failing backend, `SessionPersistenceBalancer.
ProxyRequest` re-enters itself forever: the health marks land on the
session pack's copy while the base WRR balancer keeps serving its own
always-alive copy, so no fuel is ever enough. -/
theorem sessionDiverges (fuel : Nat) : ∀ (e : Int) (b : Bool) (a : Nat),
    (sessionProxyRequest fuel (badState2 e b) (fun _ => true) a rPlain).1 =
      ProxyResult.outOfFuel := by
  induction fuel with
  | zero => intro e b a; rfl
  | succ fuel ih =>
    intro e b a
    rw [session_step_one]
    have h2 : ({ badState2 e b with processPack := [(handleFailure (badProc e b)).1] }) =
        badState2 (e + 1) (if (3 : Int) ≤ e + 1 then false else b) := by
      rw [handleFailure_badProc]
      rfl
    rw [h2]
    exact ih (e + 1) _ (a + 1)

theorem sum_map_updateAt_nat (j : Nat) (l : List α) (f : α → α) (F : α → Nat)
    (x : α) (hx : l[j]? = some x) :
    ((updateAt j f l).map F).sum + F x = (l.map F).sum + F (f x) := by
  induction l generalizing j with
  | nil => simp at hx
  | cons y ys ih =>
    cases j with
    | zero =>
      simp only [List.getElem?_cons_zero, Option.some.injEq] at hx
      subst hx
      simp [updateAt]
      omega
    | succ j =>
      simp only [List.getElem?_cons_succ] at hx
      have := ih j hx
      simp [updateAt]
      omega

theorem procMeasure_current (p : Process) (c : Int) :
    procMeasure { p with current := c } = procMeasure p := rfl

theorem procMeasure_handleFailure_lt (p : Process) (halive : p.alive = true) :
    procMeasure (handleFailure p).1 < procMeasure p := by
  by_cases h : (3 : Int) ≤ p.errorCount + 1
  · simp only [handleFailure, if_pos h]
    simp [procMeasure, halive]
  · simp only [handleFailure, if_neg h]
    simp [procMeasure, halive]
    omega

theorem procMeasure_pos (p : Process) (halive : p.alive = true) :
    1 ≤ procMeasure p := by
  simp [procMeasure, halive]

/-- What one successful WRR dispatch guarantees, with no invariant on
the input state: the selected index points at an alive backend (before
and after the credit mutation), and neither the total weight nor the
error budget changes. -/
theorem wrrGetNextInstance_some (lb : WRRBalancer) (j : Nat) (lb2 : WRRBalancer)
    (h : wrrGetNextInstance lb = (some j, lb2)) :
    ∃ pj, lb.processPack[j]? = some pj ∧ pj.alive = true ∧
      lb2.totalWeight = lb.totalWeight ∧
      wrrMeasure lb2 = wrrMeasure lb ∧
      ∃ pj2, lb2.processPack[j]? = some pj2 ∧ pj2.alive = true := by
  by_cases hempty : lb.processPack.isEmpty
  · simp [wrrGetNextInstance, hempty] at h
  · have hemptyf : lb.processPack.isEmpty = false := by
      cases he : lb.processPack.isEmpty
      · rfl
      · exact absurd he hempty
    cases hscan : wrrScan lb.processPack 0 0 none with
    | none => simp [wrrGetNextInstance, hempty, hscan] at h
    | some j0 =>
      have hfst : (wrrGetNextInstance lb).1 = some j0 := by
        simp [wrrGetNextInstance, hemptyf, hscan]
      have hj : j0 = j := by
        rw [h] at hfst
        exact (by simpa using hfst : j = j0).symm
      subst hj
      have hpack2 : lb2.processPack =
          updateAt j0 (fun p => { p with current := p.current - lb.totalWeight })
            (lb.processPack.map fun p =>
              if p.alive then { p with current := p.current + p.weight } else p) := by
        have := wrr_step_pack lb j0 hemptyf hscan
        rw [h] at this
        exact this
      have htw : lb2.totalWeight = lb.totalWeight := by
        have := wrrGetNextInstance_totalWeight lb
        rw [h] at this
        exact this
      rcases wrrScan_some lb.processPack 0 0 none j0 (le_refl 0) hscan with h0 | h0
      · exact absurd h0 (by simp)
      · rcases h0 with ⟨k, pj, hpj, halive, hcur, hk⟩
        rcases Nat.zero_add k ▸ hk with rfl
        have hgj : (lb.processPack.map fun p =>
            if p.alive then { p with current := p.current + p.weight } else p)[j0]? =
            some { pj with current := pj.current + pj.weight } := by
          rw [List.getElem?_map, hpj]
          simp [halive]
        refine ⟨pj, hpj, halive, htw, ?_, ?_⟩
        · show (lb2.processPack.map procMeasure).sum = (lb.processPack.map procMeasure).sum
          rw [hpack2]
          have hsum := sum_map_updateAt_nat j0 _
            (fun p => { p with current := p.current - lb.totalWeight }) procMeasure
            { pj with current := pj.current + pj.weight } hgj
          rw [procMeasure_current] at hsum
          have hmap : ((lb.processPack.map fun p =>
              if p.alive then { p with current := p.current + p.weight } else p).map
                procMeasure) = lb.processPack.map procMeasure := by
            rw [List.map_map]
            apply List.map_congr_left
            intro p _
            by_cases hp : p.alive <;> simp [procMeasure, hp]
          rw [hmap] at hsum
          have hpm : procMeasure { pj with current :=
              pj.current + pj.weight - lb.totalWeight } = procMeasure pj := rfl
          rw [hpm] at hsum
          omega
        · refine ⟨{ pj with current := pj.current + pj.weight - lb.totalWeight }, ?_, halive⟩
          rw [hpack2, updateAt_get?, if_pos rfl, hgj]
          rfl

/-- Bounded-retry characterisation of the WRR proxy: with fuel above the
pool's error budget the recursion terminates; the outcome is 503 (body
"No healthy backends available") or success — never a 502 — and the
number of attempts is at most the error budget. -/
theorem wrrProxy_bounded (fuel : Nat) :
    ∀ (lb : WRRBalancer) (failAt : Nat → Bool) (attempt : Nat),
      wrrMeasure lb < fuel →
        (wrrProxyRequest fuel lb failAt attempt).1 ≠ ProxyResult.outOfFuel ∧
        ((wrrProxyRequest fuel lb failAt attempt).1 =
            ProxyResult.response 503 "No healthy backends available" ∨
          (wrrProxyRequest fuel lb failAt attempt).1 = ProxyResult.response 200 "") ∧
        (wrrProxyRequest fuel lb failAt attempt).2.1.length ≤ wrrMeasure lb := by
  induction fuel with
  | zero =>
    intro lb failAt attempt hm
    omega
  | succ fuel ih =>
    intro lb failAt attempt hm
    cases hg : wrrGetNextInstance lb with
    | mk sel lb2 =>
      cases sel with
      | none =>
        refine ⟨?_, ?_, ?_⟩ <;> simp [wrrProxyRequest, hg]
      | some j =>
        rcases wrrGetNextInstance_some lb j lb2 hg with
          ⟨pj, hpj, halive, htw, hms, pj2, hpj2, halive2⟩
        have hmem : procMeasure pj ∈ lb.processPack.map procMeasure :=
          List.mem_map.mpr ⟨pj, mem_of_getElem?_eq _ _ _ hpj, rfl⟩
        have hone : 1 ≤ wrrMeasure lb := by
          have h1 := procMeasure_pos pj halive
          have h2 := List.single_le_sum (by intro x _; omega : ∀ x ∈ lb.processPack.map procMeasure, 0 ≤ x)
            _ hmem
          unfold wrrMeasure
          omega
        cases hf : failAt attempt with
        | false =>
          refine ⟨?_, ?_, ?_⟩ <;> simp [wrrProxyRequest, hg, hf]
          · exact hone
        | true =>
          have hdec : wrrMeasure { lb2 with processPack := updateAt j (fun p => (handleFailure p).1) lb2.processPack } < wrrMeasure lb2 := by
            show ((updateAt j (fun p => (handleFailure p).1) lb2.processPack).map
              procMeasure).sum < (lb2.processPack.map procMeasure).sum
            have hsum := sum_map_updateAt_nat j lb2.processPack
              (fun p => (handleFailure p).1) procMeasure pj2 hpj2
            have hlt : procMeasure ((fun p => (handleFailure p).1) pj2) < procMeasure pj2 :=
              procMeasure_handleFailure_lt pj2 halive2
            omega
          have ihr := ih { lb2 with processPack := updateAt j (fun p => (handleFailure p).1) lb2.processPack }
            failAt (attempt + 1) (by omega)
          refine ⟨?_, ?_, ?_⟩ <;> simp [wrrProxyRequest, hg, hf]
          · exact ihr.1
          · exact ihr.2.1
          · have := ihr.2.2
            omega

/-- C4 counterexample: four always-failing backends; one request is
retried 12 times across 4 distinct backends — both beyond the claimed
hop limit of 3 — and the exhausted retries surface as 503, not 502. -/
theorem C4_hop_limit_counterexample :
    (wrrProxyRequest 20 (newLoadBalancer [⟨"http://localhost:8001", 1⟩,
        ⟨"http://localhost:8002", 1⟩, ⟨"http://localhost:8003", 1⟩,
        ⟨"http://localhost:8004", 1⟩]) (fun _ => true) 0).2.1 =
      [0, 1, 2, 3, 0, 1, 2, 3, 0, 1, 2, 3] ∧
    (wrrProxyRequest 20 (newLoadBalancer [⟨"http://localhost:8001", 1⟩,
        ⟨"http://localhost:8002", 1⟩, ⟨"http://localhost:8003", 1⟩,
        ⟨"http://localhost:8004", 1⟩]) (fun _ => true) 0).1 =
      ProxyResult.response 503 "No healthy backends available" := by
  constructor <;> decide

/-- C4 amended: there is no per-request hop limit.  (a) For the WRR
balancer the retry recursion still terminates — each failure burns one
unit of the pool's finite error budget (3 per alive backend), the
request makes at most that many attempts, and the outcome is 503 `"No
healthy backends available"` or success, never 502.  (b) For the
session-persistence balancer the recursion need NOT terminate: health
marks land on the session's own process copies while the base scheduler
keeps serving its separate always-alive copies, so with an
always-failing backend every amount of fuel is exhausted. -/
theorem C4_retry_amended :
    (∀ (fuel : Nat) (lb : WRRBalancer) (failAt : Nat → Bool) (attempt : Nat),
      wrrMeasure lb < fuel →
        (wrrProxyRequest fuel lb failAt attempt).1 ≠ ProxyResult.outOfFuel ∧
        ((wrrProxyRequest fuel lb failAt attempt).1 =
            ProxyResult.response 503 "No healthy backends available" ∨
          (wrrProxyRequest fuel lb failAt attempt).1 = ProxyResult.response 200 "") ∧
        (wrrProxyRequest fuel lb failAt attempt).2.1.length ≤ wrrMeasure lb) ∧
    (∀ fuel : Nat,
      (sessionProxyRequest fuel (newSessionPersistenceBalancer
          [⟨"http://localhost:8001", 1⟩] LoadBalancerAlgorithm.weightedRoundRobin
          PersistenceMethod.cookiePersistence) (fun _ => true) 0 rPlain).1 =
        ProxyResult.outOfFuel) :=
  ⟨fun fuel => wrrProxy_bounded fuel, fun fuel => sessionDiverges fuel 0 true 0⟩

/-- Witness for C4's amended statement: a one-backend pool (error budget
4) with a non-failing oracle terminates within fuel 5 in a non-502
response. -/
theorem C4_retry_amended_witness :
    wrrMeasure (newLoadBalancer [⟨"http://localhost:8001", 1⟩]) < 5 ∧
    ((wrrProxyRequest 5 (newLoadBalancer [⟨"http://localhost:8001", 1⟩])
        (fun _ => false) 0).1 =
        ProxyResult.response 503 "No healthy backends available" ∨
      (wrrProxyRequest 5 (newLoadBalancer [⟨"http://localhost:8001", 1⟩])
        (fun _ => false) 0).1 = ProxyResult.response 200 "") :=
  ⟨by decide,
    (C4_retry_amended.1 5 (newLoadBalancer [⟨"http://localhost:8001", 1⟩])
      (fun _ => false) 0 (by decide)).2.1⟩

theorem wrrScan_all_dead (ps : List Process) (i : Nat) (m : Int) (sel : Option Nat)
    (h : ∀ p ∈ ps, p.alive = false) : wrrScan ps i m sel = sel := by
  induction ps generalizing i m sel with
  | nil => rfl
  | cons p ps ih =>
    rw [wrrScan]
    rw [if_neg]
    · exact ih (i + 1) m sel (fun q hq => h q (List.mem_cons_of_mem _ hq))
    · intro hc
      have := h p (List.mem_cons_self _ _)
      rw [this] at hc
      exact Bool.false_ne_true hc.1

theorem lcScan_all_dead (ps : List Process) (i : Nat) (m : Int)
    (sel : Option (Nat × Process)) (h : ∀ p ∈ ps, p.alive = false) :
    lcScan ps i m sel = sel := by
  induction ps generalizing i m sel with
  | nil => rfl
  | cons p ps ih =>
    have hdead : p.alive = true → False := by
      intro hc
      have := h p (List.mem_cons_self _ _)
      rw [this] at hc
      exact Bool.false_ne_true hc
    have hrest := fun q hq => h q (List.mem_cons_of_mem p hq)
    cases sel with
    | none =>
      rw [lcScan, if_neg hdead]
      exact ih (i + 1) m none hrest
    | some jq =>
      cases jq with
      | mk j q =>
        rw [lcScan, if_neg hdead]
        exact ih (i + 1) m (some (j, q)) hrest

theorem lcScan_some (ps : List Process) (i : Nat) (m : Int)
    (sel : Option (Nat × Process)) (res : Nat × Process)
    (h : lcScan ps i m sel = some res) :
    sel = some res ∨ ∃ k p, ps[k]? = some p ∧ p.alive = true ∧ res = (i + k, p) := by
  induction ps generalizing i m sel with
  | nil => exact Or.inl h
  | cons p ps ih =>
    have hsub : p.alive = true → ∀ (m2 : Int) (sel2 : Option (Nat × Process)),
        (sel2 = sel ∨ sel2 = some (i, p)) →
        lcScan ps (i + 1) m2 sel2 = some res →
        sel = some res ∨
          ∃ k q, (p :: ps)[k]? = some q ∧ q.alive = true ∧ res = (i + k, q) := by
      intro halive m2 sel2 hsel2 hrec
      rcases ih (i + 1) m2 sel2 hrec with h0 | h0
      · rcases hsel2 with rfl | rfl
        · exact Or.inl h0
        · have hres : res = (i, p) := by simpa using h0.symm
          exact Or.inr ⟨0, p, by simp, halive, by simpa using hres⟩
      · rcases h0 with ⟨k, q, hq, ha, hres⟩
        refine Or.inr ⟨k + 1, q, by simpa using hq, ha, ?_⟩
        rw [hres]
        congr 1
        omega
    have hskip : ∀ (sel2 : Option (Nat × Process)), sel2 = sel →
        lcScan ps (i + 1) m sel2 = some res →
        sel = some res ∨
          ∃ k q, (p :: ps)[k]? = some q ∧ q.alive = true ∧ res = (i + k, q) := by
      intro sel2 hsel2 hrec
      subst hsel2
      rcases ih (i + 1) m sel2 hrec with h0 | h0
      · exact Or.inl h0
      · rcases h0 with ⟨k, q, hq, ha, hres⟩
        refine Or.inr ⟨k + 1, q, by simpa using hq, ha, ?_⟩
        rw [hres]
        congr 1
        omega
    cases sel with
    | none =>
      rw [lcScan] at h
      split at h
      · rename_i halive
        split at h
        · exact hsub halive _ _ (Or.inr rfl) h
        · exact hsub halive _ _ (Or.inl rfl) h
      · exact hskip _ rfl h
    | some jq =>
      cases jq with
      | mk j q =>
        rw [lcScan] at h
        split at h
        · rename_i halive
          split at h
          · split at h
            · exact hsub halive _ _ (Or.inr rfl) h
            · exact hsub halive _ _ (Or.inl rfl) h
          · split at h
            · exact hsub halive _ _ (Or.inr rfl) h
            · exact hsub halive _ _ (Or.inl rfl) h
        · exact hskip _ rfl h

theorem procAt_mem (ch : ConsistentHashRing) (idx : Nat) (p : Process)
    (h : procAt ch idx = some p) : p ∈ ch.processes := by
  unfold procAt at h
  cases hm : mapGet ch.ringMap (ch.sortedHashes.getD idx 0) with
  | none => rw [hm] at h; exact absurd h (by simp)
  | some pidx =>
    rw [hm] at h
    exact mem_of_getElem?_eq _ _ _ h

theorem ringWalk_alive (ch : ConsistentHashRing) (idx : Nat) (p : Process)
    (h : ringWalk ch idx = some p) : p.alive = true ∧ p ∈ ch.processes := by
  unfold ringWalk at h
  rcases List.exists_of_findSome?_eq_some h with ⟨i, hi, hf⟩
  cases hp : procAt ch ((idx + i) % ch.sortedHashes.length) with
  | none => rw [hp] at hf; exact absurd hf (by simp)
  | some q =>
    rw [hp] at hf
    dsimp only [] at hf
    by_cases hq : q.alive = true
    · rw [if_pos hq] at hf
      have : q = p := by simpa using hf
      subst this
      exact ⟨hq, procAt_mem ch _ q hp⟩
    · rw [if_neg hq] at hf
      exact absurd hf (by simp)

theorem getNode_alive (ch : ConsistentHashRing) (key : String) (p : Process)
    (h : getNode ch key = some p) : p.alive = true ∧ p ∈ ch.processes := by
  rw [getNode] at h
  split at h
  · exact absurd h (by simp)
  · dsimp only [] at h
    cases hq : procAt ch (if sortSearch ch.sortedHashes.length
        (fun i => decide (crc32 key ≤ ch.sortedHashes.getD i 0)) = ch.sortedHashes.length
        then 0
        else sortSearch ch.sortedHashes.length
          (fun i => decide (crc32 key ≤ ch.sortedHashes.getD i 0))) with
    | none => rw [hq] at h; exact absurd h (by simp)
    | some q =>
      rw [hq] at h
      dsimp only [] at h
      by_cases hal : q.alive = true
      · rw [if_pos hal] at h
        have : q = p := by simpa using h
        subst this
        exact ⟨hal, procAt_mem ch _ q hq⟩
      · rw [if_neg hal] at h
        exact ringWalk_alive ch _ p h

theorem cookieLookupIdx_alive (pack : List Process) (v : Option String) (i : Nat)
    (h : cookieLookupIdx pack v = some i) :
    ∃ p, pack[i]? = some p ∧ p.alive = true := by
  cases v with
  | none => exact absurd h (by simp [cookieLookupIdx])
  | some s =>
    rw [cookieLookupIdx] at h
    split at h
    · exact absurd h (by simp)
    · cases hsp : splitChar ':' s.data with
      | nil =>
        rw [hsp] at h
        simp at h
      | cons a rest =>
        cases rest with
        | nil =>
          rw [hsp] at h
          simp at h
        | cons b rest2 =>
          cases rest2 with
          | cons c rest3 =>
            rw [hsp] at h
            simp at h
          | nil =>
            rw [hsp] at h
            dsimp only [] at h
            cases hat : atoi a with
            | none =>
              rw [hat] at h
              simp at h
            | some idx =>
              rw [hat] at h
              dsimp only [] at h
              by_cases hrange : 0 ≤ idx ∧ idx < (pack.length : Int)
              · rw [if_pos hrange] at h
                cases hb : pack[idx.toNat]? with
                | none =>
                  rw [hb] at h
                  simp at h
                | some backend =>
                  rw [hb] at h
                  dsimp only [] at h
                  by_cases hal : backend.alive = true
                  · rw [if_pos hal] at h
                    have hidx : idx.toNat = i := by simpa using h
                    subst hidx
                    exact ⟨backend, hb, hal⟩
                  · rw [if_neg hal] at h
                    simp at h
              · rw [if_neg hrange] at h
                simp at h

theorem ipHashLookup_alive (lb : SessionPersistenceBalancer) (ip : String) (p : Process)
    (h : ipHashLookup lb ip = some p) :
    ∃ i : Nat, lb.processPack[i]? = some p ∧ p.alive = true := by
  unfold ipHashLookup at h
  cases hm : mapGet lb.ipToBackendMap ip with
  | none => rw [hm] at h; exact absurd h (by simp)
  | some index =>
    rw [hm] at h
    dsimp only [] at h
    cases hq : lb.processPack[index]? with
    | none => rw [hq] at h; exact absurd h (by simp)
    | some q =>
      rw [hq] at h
      dsimp only [] at h
      by_cases hal : q.alive = true
      · rw [if_pos hal] at h
        have : q = p := by simpa using h
        subst this
        exact ⟨index, hq, hal⟩
      · rw [if_neg hal] at h
        exact absurd h (by simp)

theorem wrrGetNextInstance_all_dead (lb : WRRBalancer)
    (h : ∀ p ∈ lb.processPack, p.alive = false) :
    wrrGetNextInstance lb = (none, lb) := by
  have hscan := wrrScan_all_dead lb.processPack 0 0 none h
  by_cases he : lb.processPack.isEmpty = true <;>
    simp [wrrGetNextInstance, he, hscan]

theorem lcGetNextInstance_all_dead (lb : LCBalancer)
    (h : ∀ p ∈ lb.processPack, p.alive = false) :
    lcGetNextInstance lb = none := by
  have hscan := lcScan_all_dead lb.processPack 0 2147483647 none h
  simp [lcGetNextInstance, hscan]

theorem baseGetNextInstance_all_dead (base : BaseLB)
    (h : ∀ p ∈ basePack base, p.alive = false) :
    baseGetNextInstance base = (none, base) := by
  cases base with
  | wrr lb =>
    have := wrrGetNextInstance_all_dead lb h
    simp [baseGetNextInstance, this]
  | lc lb =>
    have := lcGetNextInstance_all_dead lb h
    simp [baseGetNextInstance, this]

theorem sessionGetNextInstance_all_dead (lb : SessionPersistenceBalancer) (r : Request)
    (hpack : ∀ p ∈ lb.processPack, p.alive = false)
    (hbase : ∀ p ∈ basePack lb.baseLB, p.alive = false)
    (hring : ∀ p ∈ lb.consistentHashRing.processes, p.alive = false) :
    (sessionGetNextInstance lb r).1 = none := by
  have hbase2 := baseGetNextInstance_all_dead lb.baseLB hbase
  have hcookie : ∀ v, cookieLookupIdx lb.processPack v = none := by
    intro v
    cases hc : cookieLookupIdx lb.processPack v with
    | none => rfl
    | some i =>
      rcases cookieLookupIdx_alive _ _ _ hc with ⟨p, hp, halive⟩
      have := hpack p (mem_of_getElem?_eq _ _ _ hp)
      rw [this] at halive
      exact absurd halive (by simp)
  have hip : ∀ ip, ipHashLookup lb ip = none := by
    intro ip
    cases hc : ipHashLookup lb ip with
    | none => rfl
    | some p =>
      rcases ipHashLookup_alive _ _ _ hc with ⟨i, hp, halive⟩
      have := hpack p (mem_of_getElem?_eq _ _ _ hp)
      rw [this] at halive
      exact absurd halive (by simp)
  have hnode : ∀ key, getNode lb.consistentHashRing key = none := by
    intro key
    cases hc : getNode lb.consistentHashRing key with
    | none => rfl
    | some p =>
      rcases getNode_alive _ _ _ hc with ⟨halive, hmem⟩
      have := hring p hmem
      rw [this] at halive
      exact absurd halive (by simp)
  cases hpm : lb.persistenceMethod with
  | cookiePersistence =>
    simp [sessionGetNextInstance, hpm, getInstanceByCookie, hcookie, hbase2]
  | ipHashPersistence =>
    by_cases hipz : getClientIP r = "" <;>
      simp [sessionGetNextInstance, hpm, getInstanceByIPHash, hipz, hip, hbase2]
  | consistentHashPersistence =>
    by_cases hpath : r.urlPath = "" <;>
      simp [sessionGetNextInstance, hpm, getInstanceByConsistentHash, hpath, hnode, hbase2]
  | noPersistence =>
    simp [sessionGetNextInstance, hpm, hbase2]

/-- C8: when no backend is alive, every scheduler returns no backend and
every ProxyRequest responds 503 Service Unavailable with body
`"No healthy backends available"` (for the session balancer, "no backend
alive" covers all three process arrays the Go code keeps: its own, the
base balancer's and the hash ring's). -/
theorem C8_no_alive_503 :
    (∀ lb : WRRBalancer, (∀ p ∈ lb.processPack, p.alive = false) →
      (wrrGetNextInstance lb).1 = none ∧
      ∀ (fuel : Nat) (failAt : Nat → Bool) (attempt : Nat),
        (wrrProxyRequest (fuel + 1) lb failAt attempt).1 =
          ProxyResult.response 503 "No healthy backends available") ∧
    (∀ lb : LCBalancer, (∀ p ∈ lb.processPack, p.alive = false) →
      lcGetNextInstance lb = none) ∧
    (∀ (lb : SessionPersistenceBalancer) (r : Request),
      (∀ p ∈ lb.processPack, p.alive = false) →
      (∀ p ∈ basePack lb.baseLB, p.alive = false) →
      (∀ p ∈ lb.consistentHashRing.processes, p.alive = false) →
      (sessionGetNextInstance lb r).1 = none ∧
      ∀ (fuel : Nat) (failAt : Nat → Bool) (attempt : Nat),
        (sessionProxyRequest (fuel + 1) lb failAt attempt r).1 =
          ProxyResult.response 503 "No healthy backends available") := by
  refine ⟨?_, ?_, ?_⟩
  · intro lb h
    have hg := wrrGetNextInstance_all_dead lb h
    refine ⟨by rw [hg], ?_⟩
    intro fuel failAt attempt
    simp [wrrProxyRequest, hg]
  · intro lb h
    exact lcGetNextInstance_all_dead lb h
  · intro lb r h1 h2 h3
    have hg := sessionGetNextInstance_all_dead lb r h1 h2 h3
    refine ⟨hg, ?_⟩
    intro fuel failAt attempt
    cases hgi : sessionGetNextInstance lb r with
    | mk fst lb2 =>
      rw [hgi] at hg
      cases fst with
      | none => simp [sessionProxyRequest, hgi]
      | some u => exact absurd hg (by simp)

/-- Witness for C8 at concrete all-dead states. -/
theorem C8_no_alive_503_witness :
    (∀ p ∈ (WRRBalancer.mk [⟨"http://localhost:8001", false, 3, 1, 1, 0⟩] 1).processPack,
      p.alive = false) ∧
    (wrrGetNextInstance (WRRBalancer.mk [⟨"http://localhost:8001", false, 3, 1, 1, 0⟩] 1)).1 =
      none ∧
    (sessionGetNextInstance (SessionPersistenceBalancer.mk
        [⟨"http://localhost:8001", false, 3, 1, 0, 0⟩]
        (BaseLB.wrr (WRRBalancer.mk [⟨"http://localhost:8001", false, 3, 1, 1, 0⟩] 1))
        PersistenceMethod.cookiePersistence
        (ConsistentHashRing.mk [] [] 100 [⟨"http://localhost:8001", false, 3, 1, 0, 0⟩])
        "GOLB_SESSION" 86400 [] [("http://localhost:8001", 0)]) rPlain).1 = none :=
  ⟨by decide,
    (C8_no_alive_503.1 (WRRBalancer.mk [⟨"http://localhost:8001", false, 3, 1, 1, 0⟩] 1)
      (by decide)).1,
    (C8_no_alive_503.2.2 (SessionPersistenceBalancer.mk
        [⟨"http://localhost:8001", false, 3, 1, 0, 0⟩]
        (BaseLB.wrr (WRRBalancer.mk [⟨"http://localhost:8001", false, 3, 1, 1, 0⟩] 1))
        PersistenceMethod.cookiePersistence
        (ConsistentHashRing.mk [] [] 100 [⟨"http://localhost:8001", false, 3, 1, 0, 0⟩])
        "GOLB_SESSION" 86400 [] [("http://localhost:8001", 0)]) rPlain
      (by decide) (by decide) (by decide)).1⟩

/-- C1 counterexample: one-backend pool with cookie persistence; the
backend fails the first three proxy attempts of one request and then
recovers.  The request completes (200) after four attempts, the session
pack's copy of the backend is left dead — and the very next
`GetNextInstance` returns that backend's URL anyway, because the
delegated-to base WRR balancer holds its own, never-marked, copy of the
pool. -/
theorem C1_dead_backend_returned_counterexample :
    ((sessionProxyRequest 10 (newSessionPersistenceBalancer [⟨"http://localhost:8001", 1⟩]
        LoadBalancerAlgorithm.weightedRoundRobin PersistenceMethod.cookiePersistence)
      (fun a => decide (a < 3)) 0 rPlain).1 = ProxyResult.response 200 "") ∧
    ((sessionProxyRequest 10 (newSessionPersistenceBalancer [⟨"http://localhost:8001", 1⟩]
        LoadBalancerAlgorithm.weightedRoundRobin PersistenceMethod.cookiePersistence)
      (fun a => decide (a < 3)) 0 rPlain).2.2.processPack.map Process.alive = [false]) ∧
    ((sessionGetNextInstance (sessionProxyRequest 10 (newSessionPersistenceBalancer
        [⟨"http://localhost:8001", 1⟩] LoadBalancerAlgorithm.weightedRoundRobin
        PersistenceMethod.cookiePersistence) (fun a => decide (a < 3)) 0 rPlain).2.2
      rPlain).1 = some "http://localhost:8001") := by
  refine ⟨?_, ?_, ?_⟩ <;> decide

/-- C1 amended: every scheduler, consulting ITS OWN process array, never
returns an entry whose alive flag is false — WRR and least-connections
selection skip dead entries, the ring lookup and the cookie and IP-hash
sticky lookups return only alive entries.  (The composite
SessionPersistenceBalancer still violates the original claim because
health marks land on its own copies only, invisible to the base
scheduler it delegates to — see the counterexample.) -/
theorem C1_dead_not_selected_amended :
    (∀ (lb : WRRBalancer) (i : Nat) (p : Process),
      lb.processPack[i]? = some p → p.alive = false →
        (wrrGetNextInstance lb).1 ≠ some i) ∧
    (∀ (lb : LCBalancer) (i : Nat) (p : Process),
      lb.processPack[i]? = some p → p.alive = false →
        lcGetNextInstance lb ≠ some i) ∧
    (∀ (ch : ConsistentHashRing) (key : String) (q : Process),
      getNode ch key = some q → q.alive = true) ∧
    (∀ (pack : List Process) (v : Option String) (i : Nat) (p : Process),
      pack[i]? = some p → p.alive = false → cookieLookupIdx pack v ≠ some i) ∧
    (∀ (lb : SessionPersistenceBalancer) (ip : String) (q : Process),
      ipHashLookup lb ip = some q → q.alive = true) := by
  refine ⟨?_, ?_, ?_, ?_, ?_⟩
  · intro lb i p hp hdead hsel
    cases hg : wrrGetNextInstance lb with
    | mk fst lb2 =>
      rw [hg] at hsel
      simp only [] at hsel
      subst hsel
      rcases wrrGetNextInstance_some lb i lb2 hg with ⟨pj, hpj, halive, _⟩
      rw [hp] at hpj
      have : p = pj := by simpa using hpj
      rw [this, halive] at hdead
      exact absurd hdead (by simp)
  · intro lb i p hp hdead hsel
    unfold lcGetNextInstance at hsel
    rcases Option.map_eq_some'.mp hsel with ⟨res, hres, hfst⟩
    rcases lcScan_some lb.processPack 0 2147483647 none res hres with h0 | h0
    · exact absurd h0 (by simp)
    · rcases h0 with ⟨k, q, hq, halive, hrespair⟩
      rw [hrespair] at hfst
      simp only [Nat.zero_add] at hfst
      subst hfst
      rw [hp] at hq
      have : p = q := by simpa using hq
      rw [this, halive] at hdead
      exact absurd hdead (by simp)
  · intro ch key q h
    exact (getNode_alive ch key q h).1
  · intro pack v i p hp hdead hsel
    rcases cookieLookupIdx_alive pack v i hsel with ⟨q, hq, halive⟩
    rw [hp] at hq
    have : p = q := by simpa using hq
    rw [this, halive] at hdead
    exact absurd hdead (by simp)
  · intro lb ip q h
    rcases ipHashLookup_alive lb ip q h with ⟨_, _, halive⟩
    exact halive

/-- Witness for C1's amended statement: a dead one-backend WRR pool
never selects index 0. -/
theorem C1_dead_not_selected_witness :
    (WRRBalancer.mk [⟨"http://localhost:8001", false, 3, 1, 1, 0⟩] 1).processPack[0]? =
      some ⟨"http://localhost:8001", false, 3, 1, 1, 0⟩ ∧
    (Process.mk "http://localhost:8001" false 3 1 1 0).alive = false ∧
    (wrrGetNextInstance (WRRBalancer.mk
      [⟨"http://localhost:8001", false, 3, 1, 1, 0⟩] 1)).1 ≠ some 0 :=
  ⟨by decide, by decide,
    C1_dead_not_selected_amended.1
      (WRRBalancer.mk [⟨"http://localhost:8001", false, 3, 1, 1, 0⟩] 1) 0
      (Process.mk "http://localhost:8001" false 3 1 1 0) (by decide) rfl⟩

/-- C3 counterexample: the tampered cookie
`"0:00000000000000000000000000000000"`, whose fingerprint differs from
the backend URL's MD5 (`2960987f…`), is accepted by the cookie lookup —
it returns index 0 instead of treating the cookie as absent, because
`getInstanceByCookie` never examines the part after the colon. -/
theorem C3_cookie_md5_counterexample :
    cookieLookupIdx [⟨"http://localhost:8001", true, 0, 1, 0, 0⟩]
      (some "0:00000000000000000000000000000000") = some 0 ∧
    md5Hex "http://localhost:8001" ≠ "00000000000000000000000000000000" := by
  constructor
  · decide
  · set_option maxRecDepth 10000 in decide

/-- C3 amended: cookie-persistence lookup returns index `i` iff the
cookie value is nonempty, splits on `":"` into exactly two parts, the
first part parses (via `Atoi`) as the integer `i`, `i` is within range
and backend `i` is alive.  The second part — the `hex_md5(backend_url)`
fingerprint — is never verified, so a tampered cookie naming an alive
in-range index is used, not treated as absent. -/
theorem C3_cookie_lookup_amended (pack : List Process) (v : Option String) (i : Nat) :
    cookieLookupIdx pack v = some i ↔
      ∃ s, v = some s ∧ s ≠ "" ∧ (splitChar ':' s.data).length = 2 ∧
        atoi ((splitChar ':' s.data).getD 0 []) = some (i : Int) ∧
        i < pack.length ∧ ∃ p, pack[i]? = some p ∧ p.alive = true := by
  cases v with
  | none => simp [cookieLookupIdx]
  | some s =>
    rw [cookieLookupIdx]
    by_cases hs : s = ""
    · rw [if_pos hs]
      simp [hs]
    · rw [if_neg hs]
      cases hsp : splitChar ':' s.data with
      | nil => simp [hsp, hs]
      | cons a rest =>
        cases rest with
        | nil => simp [hsp, hs]
        | cons b rest2 =>
          cases rest2 with
          | cons c rest3 => simp [hsp, hs]
          | nil =>
            dsimp only []
            cases hat : atoi a with
            | none => simp [hsp, hs, hat]
            | some idx =>
              dsimp only []
              by_cases hrange : 0 ≤ idx ∧ idx < (pack.length : Int)
              · rw [if_pos hrange]
                cases hb : pack[idx.toNat]? with
                | none =>
                  exact absurd hb (by
                    have hlt : idx.toNat < pack.length := by omega
                    rw [List.getElem?_eq_getElem hlt]
                    simp)
                | some backend =>
                  dsimp only []
                  by_cases hal : backend.alive = true
                  · rw [if_pos hal]
                    constructor
                    · intro hres
                      have hi : idx.toNat = i := by simpa using hres
                      subst hi
                      refine ⟨s, rfl, hs, by simp [hsp], ?_, by omega, backend, hb, hal⟩
                      rw [hsp]
                      have hcast : ((idx.toNat : Nat) : Int) = idx := by omega
                      rw [show ([a, b].getD 0 [] : List Char) = a from rfl, hat, hcast]
                    · rintro ⟨s2, hs2, _, _, hat2, hilen, p, hp, halive2⟩
                      have hss : s2 = s := by simpa using hs2.symm
                      subst hss
                      rw [hsp] at hat2
                      rw [show ([a, b].getD 0 [] : List Char) = a from rfl, hat] at hat2
                      have hidx : idx = (i : Int) := by simpa using hat2
                      have hii : idx.toNat = i := by omega
                      rw [hii]
                  · rw [if_neg hal]
                    constructor
                    · intro hres
                      exact absurd hres (by simp)
                    · rintro ⟨s2, hs2, _, _, hat2, hilen, p, hp, halive2⟩
                      have hss : s2 = s := by simpa using hs2.symm
                      subst hss
                      rw [hsp] at hat2
                      rw [show ([a, b].getD 0 [] : List Char) = a from rfl, hat] at hat2
                      have hidx : idx = (i : Int) := by simpa using hat2
                      have hii : idx.toNat = i := by omega
                      rw [hii, hp] at hb
                      have hbp : backend = p := by simpa using hb.symm
                      rw [hbp] at hal
                      exact absurd halive2 hal
              · rw [if_neg hrange]
                constructor
                · intro hres
                  exact absurd hres (by simp)
                · rintro ⟨s2, hs2, _, _, hat2, hilen, p, hp, halive2⟩
                  have hss : s2 = s := by simpa using hs2.symm
                  subst hss
                  rw [hsp] at hat2
                  rw [show ([a, b].getD 0 [] : List Char) = a from rfl, hat] at hat2
                  have hidx : idx = (i : Int) := by simpa using hat2
                  exact absurd (by omega : (0 : Int) ≤ idx ∧ idx < (pack.length : Int)) hrange

/-- C6 counterexample: with backend 0 dead, the lookup for path `"/a"`
lands in a run of two consecutive backend-0 virtual nodes; the dead-walk
inspects only `len(processes) = 2` ring slots — not one full
revolution — so `GetNode` returns none although backend 1 is alive and
owns 100 of the 200 ring slots. -/
theorem C6_ring_walk_counterexample :
    getNode chC6 "/a" = none ∧
    (chC6.processes[1]?).map Process.alive = some true ∧
    (chC6.ringMap.filter fun e => e.2 == 1).length = 100 := by
  refine ⟨?_, ?_, ?_⟩ <;> set_option maxRecDepth 1000000 in decide

theorem findSome?_eq_none_forall (f : α → Option β) (l : List α)
    (h : l.findSome? f = none) : ∀ a ∈ l, f a = none := by
  induction l with
  | nil => intro a ha; simp at ha
  | cons x xs ih =>
    rw [List.findSome?_cons] at h
    intro a ha
    rcases List.mem_cons.mp ha with rfl | ha
    · cases hf : f a with
      | none => rfl
      | some b => rw [hf] at h; exact absurd h (by simp)
    · cases hf : f x with
      | none => rw [hf] at h; exact ih h a ha
      | some b => rw [hf] at h; exact absurd h (by simp)

/-- C6 amended: the lookup hashes the path with CRC32 and binary-searches
for the first ring entry with hash ≥ the key (wrapping to 0); an ALIVE
backend at that slot is returned, and any returned backend is alive.
But when that slot's backend is dead the walk inspects only
`len(processes)` consecutive ring slots (one per configured backend,
re-checking the start slot), NOT one full revolution: `GetNode` can
return none even though an alive backend exists elsewhere on the ring,
and when it does return none every slot of that short window is dead. -/
theorem C6_ring_lookup_amended :
    (∀ (ch : ConsistentHashRing) (key : String) (p : Process),
      getNode ch key = some p → p.alive = true) ∧
    (∀ (ch : ConsistentHashRing) (key : String) (p : Process),
      ch.ringMap.length ≠ 0 →
      procAt ch (ringStartIdx ch key) = some p → p.alive = true →
      getNode ch key = some p) ∧
    (∀ (ch : ConsistentHashRing) (key : String) (p0 : Process),
      procAt ch (ringStartIdx ch key) = some p0 →
      getNode ch key = none →
      ∀ i, i < ch.processes.length → ∀ p,
        procAt ch ((ringStartIdx ch key + i) % ch.sortedHashes.length) = some p →
        p.alive = false) := by
  refine ⟨?_, ?_, ?_⟩
  · intro ch key p h
    exact (getNode_alive ch key p h).1
  · intro ch key p hne hp halive
    rw [getNode]
    rw [if_neg hne]
    dsimp only []
    have hp2 : procAt ch (if sortSearch ch.sortedHashes.length
        (fun i => decide (crc32 key ≤ ch.sortedHashes.getD i 0)) = ch.sortedHashes.length
        then 0
        else sortSearch ch.sortedHashes.length
          (fun i => decide (crc32 key ≤ ch.sortedHashes.getD i 0))) = some p := hp
    rw [hp2]
    dsimp only []
    rw [if_pos halive]
  · intro ch key p0 hp0 hnone i hi p hp
    by_cases hne : ch.ringMap.length = 0
    · exfalso
      unfold procAt at hp0
      have hmap : ch.ringMap = [] := List.length_eq_zero.mp hne
      rw [hmap] at hp0
      exact absurd hp0 (by simp [mapGet])
    · rw [getNode] at hnone
      rw [if_neg hne] at hnone
      dsimp only [] at hnone
      have hp02 : procAt ch (if sortSearch ch.sortedHashes.length
          (fun i => decide (crc32 key ≤ ch.sortedHashes.getD i 0)) = ch.sortedHashes.length
          then 0
          else sortSearch ch.sortedHashes.length
            (fun i => decide (crc32 key ≤ ch.sortedHashes.getD i 0))) = some p0 := hp0
      rw [hp02] at hnone
      dsimp only [] at hnone
      by_cases hal0 : p0.alive = true
      · rw [if_pos hal0] at hnone
        exact absurd hnone (by simp)
      · rw [if_neg hal0] at hnone
        have hwalk := findSome?_eq_none_forall _ _ hnone i (List.mem_range.mpr hi)
        have hwp : procAt ch ((ringStartIdx ch key + i) % ch.sortedHashes.length) =
            some p := hp
        rw [show ((ringStartIdx ch key + i) % ch.sortedHashes.length) =
            ((if sortSearch ch.sortedHashes.length
              (fun i => decide (crc32 key ≤ ch.sortedHashes.getD i 0)) =
                ch.sortedHashes.length
              then 0
              else sortSearch ch.sortedHashes.length
                (fun i => decide (crc32 key ≤ ch.sortedHashes.getD i 0))) + i) %
              ch.sortedHashes.length from rfl] at hwp
        rw [hwp] at hwalk
        dsimp only [] at hwalk
        by_cases halp : p.alive = true
        · rw [if_pos halp] at hwalk
          exact absurd hwalk (by simp)
        · cases hpa : p.alive
          · rfl
          · exact absurd hpa halp

/-- Witness for C6's amended statement: on a one-entry ring whose single
backend is alive, the lookup returns that backend. -/
theorem C6_ring_lookup_witness :
    (ConsistentHashRing.mk [(5, 0)] [5] 100
        [⟨"http://localhost:8001", true, 0, 1, 0, 0⟩]).ringMap.length ≠ 0 ∧
    procAt (ConsistentHashRing.mk [(5, 0)] [5] 100
        [⟨"http://localhost:8001", true, 0, 1, 0, 0⟩])
      (ringStartIdx (ConsistentHashRing.mk [(5, 0)] [5] 100
        [⟨"http://localhost:8001", true, 0, 1, 0, 0⟩]) "/a") =
      some ⟨"http://localhost:8001", true, 0, 1, 0, 0⟩ ∧
    getNode (ConsistentHashRing.mk [(5, 0)] [5] 100
        [⟨"http://localhost:8001", true, 0, 1, 0, 0⟩]) "/a" =
      some ⟨"http://localhost:8001", true, 0, 1, 0, 0⟩ :=
  ⟨by decide, by decide,
    C6_ring_lookup_amended.2.1
      (ConsistentHashRing.mk [(5, 0)] [5] 100
        [⟨"http://localhost:8001", true, 0, 1, 0, 0⟩]) "/a"
      (Process.mk "http://localhost:8001" true 0 1 0 0)
      (by decide) (by decide) rfl⟩

end GoLB
